import Mathlib

/-!
Shallow embedding of the assign_manager allocation engine.

The quota planner is `advanced_optimal_strategy` from
`optimal_strategy_analysis.py`; the worker mapper is
`assign_workers_to_tasks` from `update_assignment_results.py`; the summary
calculator is `StrategyManager.get_strategy_summary` from
`strategy_manager.py`.  Python integers are modelled by `Nat` (all the
quantities involved — counts, minutes, capacities — are non-negative in
every reachable state, and every subtraction in the source is guarded by a
`>=` test, so `Nat` subtraction coincides with the source arithmetic).
Pandas dataframes of work rows are modelled by `List WorkItem`; the
`defaultdict(lambda: [0, 0])` quota dictionary is modelled by an
association list in insertion order.
-/

namespace AssignManager

/-- One row of the work dataframe: the engine only reads `priority` and
`difficulty`. -/
structure WorkItem where
  priority : Nat
  difficulty : Nat
deriving Repr, DecidableEq

/-- Per-difficulty quota entry: `[senior_count, junior_count]`. -/
structure Quota where
  senior : Nat
  junior : Nat
deriving Repr, DecidableEq

/-- The quota plan `assignment`: difficulty ↦ quota, in key-insertion order
(the iteration order of the Python `defaultdict`). -/
abbrev Plan := List (Nat × Quota)

/-- Dictionary lookup `assignment[d]` (read-only). -/
def planFind (p : Plan) (d : Nat) : Option Quota :=
  match p.find? (fun e => e.1 == d) with
  | some e => some e.2
  | none => none

/-- The key set of the quota dictionary, in insertion order. -/
def planKeys (p : Plan) : List Nat := p.map (·.1)

/-- `assignment[d][0] += 1` on a `defaultdict(lambda: [0, 0])`: accessing a
missing key inserts it (at the end of the iteration order). -/
def bumpSenior : Plan → Nat → Plan
  | [], d => [(d, ⟨1, 0⟩)]
  | e :: rest, d =>
    if e.1 = d then (e.1, ⟨e.2.senior + 1, e.2.junior⟩) :: rest
    else e :: bumpSenior rest d

/-- `assignment[d][1] += 1` on a `defaultdict(lambda: [0, 0])`. -/
def bumpJunior : Plan → Nat → Plan
  | [], d => [(d, ⟨0, 1⟩)]
  | e :: rest, d =>
    if e.1 = d then (e.1, ⟨e.2.senior, e.2.junior + 1⟩) :: rest
    else e :: bumpJunior rest d

/-- Total number of items placed in a plan:
`sum(sum(counts) for counts in assignment.values())`. -/
def planTotal (p : Plan) : Nat :=
  (p.map (fun e => e.2.senior + e.2.junior)).sum

/-- Senior minutes a plan accounts for under a time table. -/
def planSeniorMinutes (st : Nat → Nat) (p : Plan) : Nat :=
  (p.map (fun e => e.2.senior * st e.1)).sum

/-- Junior minutes a plan accounts for under a time table. -/
def planJuniorMinutes (jt : Nat → Nat) (p : Plan) : Nat :=
  (p.map (fun e => e.2.junior * jt e.1)).sum

/-- Stable insertion used by `sortBy`. -/
def insertLe (le : α → α → Bool) (x : α) : List α → List α
  | [] => [x]
  | y :: ys => if le x y then x :: y :: ys else y :: insertLe le x ys

/-- Stable sort modelling `DataFrame.sort_values` (same input, same output;
ties keep a deterministic order). -/
def sortBy (le : α → α → Bool) (l : List α) : List α :=
  l.foldr (insertLe le) []

/-- `sort_values('difficulty')`. -/
def byDifficulty (a b : WorkItem) : Bool :=
  a.difficulty ≤ b.difficulty

/-- `sort_values(['priority', 'difficulty'])`. -/
def byPriorityDifficulty (a b : WorkItem) : Bool :=
  a.priority < b.priority || (a.priority == b.priority && a.difficulty ≤ b.difficulty)

/-- Parameters of `advanced_optimal_strategy` (after the `None`-defaulting
prologue resolved them to concrete values `_senior_workers`, …). -/
structure PlannerConfig where
  seniorWorkers : Nat
  juniorWorkers : Nat
  workHoursPerDay : Nat
  minimumWorkTarget : Nat
  seniorTime : Nat → Nat
  juniorTime : Nat → Nat

/-- The mutable locals of `advanced_optimal_strategy`. -/
structure PlannerState where
  assignment : Plan
  remSenior : Nat
  remJunior : Nat
  completed : Nat
  p1Completed : Nat
  warnings : Nat
deriving Repr, DecidableEq

/-- Initial planner state: empty plan,
`remaining_senior_time = _senior_workers * _work_hours_per_day`, etc. -/
def initState (cfg : PlannerConfig) : PlannerState :=
  { assignment := []
    remSenior := cfg.seniorWorkers * cfg.workHoursPerDay
    remJunior := cfg.juniorWorkers * cfg.workHoursPerDay
    completed := 0
    p1Completed := 0
    warnings := 0 }

/-- Body of the phase-1 loop (lines 48–66 of
`optimal_strategy_analysis.py`): senior first, then junior, otherwise a
warning is printed (`verbose`) and the item is skipped via `continue`. -/
def phase1Step (cfg : PlannerConfig) (s : PlannerState) (i : WorkItem) : PlannerState :=
  let st := cfg.seniorTime i.difficulty
  let jt := cfg.juniorTime i.difficulty
  if st ≤ s.remSenior then
    { s with assignment := bumpSenior s.assignment i.difficulty
             remSenior := s.remSenior - st
             completed := s.completed + 1
             p1Completed := s.p1Completed + 1 }
  else if jt ≤ s.remJunior then
    { s with assignment := bumpJunior s.assignment i.difficulty
             remJunior := s.remJunior - jt
             completed := s.completed + 1
             p1Completed := s.p1Completed + 1 }
  else
    { s with warnings := s.warnings + 1 }

/-- Phase 1: `df[df['priority'] == 1].sort_values('difficulty')` folded
through `phase1Step`. -/
def phase1 (cfg : PlannerConfig) (items : List WorkItem) : PlannerState :=
  (sortBy byDifficulty (items.filter (fun i => i.priority == 1))).foldl
    (phase1Step cfg) (initState cfg)

/-- Phase-2 senior placement (lines 90–91 / 96–97). -/
def p2Senior (cfg : PlannerConfig) (s : PlannerState) (i : WorkItem) : PlannerState :=
  { s with assignment := bumpSenior s.assignment i.difficulty
           remSenior := s.remSenior - cfg.seniorTime i.difficulty
           completed := s.completed + 1 }

/-- Phase-2 junior placement (lines 93–94 / 99–100). -/
def p2Junior (cfg : PlannerConfig) (s : PlannerState) (i : WorkItem) : PlannerState :=
  { s with assignment := bumpJunior s.assignment i.difficulty
           remJunior := s.remJunior - cfg.juniorTime i.difficulty
           completed := s.completed + 1 }

/-- Phase-2 loop (lines 74–104).  The `break` on
`completed_count >= _minimum_work_target` is the head test.  The source
compares efficiencies `1/senior_time >= 1/junior_time`; for the positive
integer times it is applied to this is exactly `senior_time <= junior_time`
(smaller per-item time wins, ties go senior), which is how it is rendered
here. -/
def phase2Go (cfg : PlannerConfig) : List WorkItem → PlannerState → PlannerState
  | [], s => s
  | i :: rest, s =>
    if cfg.minimumWorkTarget ≤ s.completed then s
    else
      let st := cfg.seniorTime i.difficulty
      let jt := cfg.juniorTime i.difficulty
      if st ≤ s.remSenior then
        if jt ≤ s.remJunior then
          if st ≤ jt then phase2Go cfg rest (p2Senior cfg s i)
          else phase2Go cfg rest (p2Junior cfg s i)
        else phase2Go cfg rest (p2Senior cfg s i)
      else if jt ≤ s.remJunior then phase2Go cfg rest (p2Junior cfg s i)
      else phase2Go cfg rest s

/-- Phase-3 junior placement (lines 117–119). -/
def p3Junior (cfg : PlannerConfig) (s : PlannerState) (i : WorkItem) : PlannerState :=
  { s with assignment := bumpJunior s.assignment i.difficulty
           remJunior := s.remJunior - cfg.juniorTime i.difficulty
           completed := s.completed + 1 }

/-- Phase-3 senior placement (lines 121–123). -/
def p3Senior (cfg : PlannerConfig) (s : PlannerState) (i : WorkItem) : PlannerState :=
  { s with assignment := bumpSenior s.assignment i.difficulty
           remSenior := s.remSenior - cfg.seniorTime i.difficulty
           completed := s.completed + 1 }

/-- Phase-3 loop body (lines 110–123): junior first, then senior, else the
item is simply skipped. -/
def phase3Go (cfg : PlannerConfig) : List WorkItem → PlannerState → PlannerState
  | [], s => s
  | i :: rest, s =>
    let st := cfg.seniorTime i.difficulty
    let jt := cfg.juniorTime i.difficulty
    if jt ≤ s.remJunior then phase3Go cfg rest (p3Junior cfg s i)
    else if st ≤ s.remSenior then phase3Go cfg rest (p3Senior cfg s i)
    else phase3Go cfg rest s

/-- Phase 3 (lines 107–123).  Note the source takes the positional slice
`df.iloc[completed_count:]` of the ORIGINAL dataframe — not the set of
still-unplaced items — and sorts that slice by ascending difficulty. -/
def phase3 (cfg : PlannerConfig) (items : List WorkItem) (s : PlannerState) : PlannerState :=
  if s.completed < items.length then
    phase3Go cfg (sortBy byDifficulty (items.drop s.completed)) s
  else s

/-- `advanced_optimal_strategy(df, ...)`: returns
`(dict(assignment), remaining_senior_time, remaining_junior_time)`. -/
def advanced_optimal_strategy (cfg : PlannerConfig) (items : List WorkItem) :
    Plan × Nat × Nat :=
  let s1 := phase1 cfg items
  let s2 := phase2Go cfg
    (sortBy byPriorityDifficulty (items.filter (fun i => i.priority != 1))) s1
  let s3 := phase3 cfg items s2
  (s3.assignment, s3.remSenior, s3.remJunior)

end AssignManager

namespace AssignManager

/-- `SENIOR_TIME` from `config_params.py` (0 outside the configured domain;
the source raises `KeyError` there, which no claim exercises). -/
def SENIOR_TIME : Nat → Nat
  | 1 => 5
  | 2 => 10
  | 3 => 20
  | 4 => 30
  | 5 => 40
  | 6 => 50
  | 7 => 60
  | _ => 0

/-- `JUNIOR_TIME = {k: int(v * 1.5) for k, v in SENIOR_TIME.items()}`. -/
def JUNIOR_TIME : Nat → Nat
  | 1 => 7
  | 2 => 15
  | 3 => 30
  | 4 => 45
  | 5 => 60
  | 6 => 75
  | 7 => 90
  | _ => 0

/-- `WORK_HOURS_PER_DAY = 8 * 60`. -/
def WORK_HOURS_PER_DAY : Nat := 8 * 60

/-- `MINIMUM_WORK_TARGET = 300`. -/
def MINIMUM_WORK_TARGET : Nat := 300

/-- `HIGH_DIFFICULTY_LEVELS = [6, 7]`. -/
def HIGH_DIFFICULTY_LEVELS : List Nat := [6, 7]

end AssignManager

namespace AssignManager

/-- Worker class tag (`worker_type` SENIOR/JUNIOR). -/
inductive WorkerClass where
  | senior
  | junior
deriving Repr, DecidableEq

/-- One output row of `assign_workers_to_tasks`: the item together with the
new columns.  `assignedWorker = none` models
`assigned_worker = worker_type = 'UNASSIGNED'`; a worker is identified by
its class and its position in that class's roster list. -/
structure ItemResult where
  item : WorkItem
  assignedWorker : Option (WorkerClass × Nat)
  estimatedTime : Nat
deriving Repr, DecidableEq

/-- The configuration globals the mapper reads (`WORK_HOURS_PER_DAY`,
`SENIOR_TIME`, `JUNIOR_TIME`, `HIGH_DIFFICULTY_LEVELS`). -/
structure MapperConfig where
  workHoursPerDay : Nat
  seniorTime : Nat → Nat
  juniorTime : Nat → Nat
  highDifficultyLevels : List Nat

/-- `workload.getD`: a class's workloads indexed by roster position. -/
def getLoad (loads : List Nat) (w : Nat) : Nat := loads.getD w 0

/-- `available = [w for w in workers if workload[w] + t <= H]` followed by
`min(available, key=lambda w: workload[w])` (Python `min` returns the first
worker attaining the minimum), or `None` when no worker fits. -/
def pickWorker (loads : List Nat) (t H : Nat) : Option Nat :=
  match (List.range loads.length).filter (fun w => getLoad loads w + t ≤ H) with
  | [] => none
  | w :: rest =>
    some (rest.foldl (fun b j => if getLoad loads j < getLoad loads b then j else b) w)

/-- `workload[w] += t`. -/
def addLoad : List Nat → Nat → Nat → List Nat
  | [], _, _ => []
  | x :: xs, 0, t => (x + t) :: xs
  | x :: xs, w + 1, t => x :: addLoad xs w t

/-- Decrement the senior quota at a difficulty
(`remaining_quota[difficulty]['senior'] -= 1`). -/
def decSenior : Plan → Nat → Plan
  | [], _ => []
  | e :: rest, d =>
    if e.1 = d then (e.1, ⟨e.2.senior - 1, e.2.junior⟩) :: rest
    else e :: decSenior rest d

/-- Decrement the junior quota at a difficulty. -/
def decJunior : Plan → Nat → Plan
  | [], _ => []
  | e :: rest, d =>
    if e.1 = d then (e.1, ⟨e.2.senior, e.2.junior - 1⟩) :: rest
    else e :: decJunior rest d

/-- The mutable locals of the assignment loop of
`assign_workers_to_tasks`: the per-difficulty `remaining_quota`, the two
workload dictionaries, and the rows written so far. -/
structure MapperState where
  quota : Plan
  seniorLoads : List Nat
  juniorLoads : List Nat
  results : List ItemResult
deriving Repr, DecidableEq

/-- A successful senior placement: write the row, add the workload,
optionally consume quota (the over-quota fallback does not). -/
def assignSenior (mc : MapperConfig) (ms : MapperState) (i : WorkItem)
    (decQ : Bool) (w : Nat) : MapperState :=
  { quota := if decQ then decSenior ms.quota i.difficulty else ms.quota
    seniorLoads := addLoad ms.seniorLoads w (mc.seniorTime i.difficulty)
    juniorLoads := ms.juniorLoads
    results := ms.results ++ [⟨i, some (.senior, w), mc.seniorTime i.difficulty⟩] }

/-- A successful junior placement. -/
def assignJunior (mc : MapperConfig) (ms : MapperState) (i : WorkItem)
    (decQ : Bool) (w : Nat) : MapperState :=
  { quota := if decQ then decJunior ms.quota i.difficulty else ms.quota
    seniorLoads := ms.seniorLoads
    juniorLoads := addLoad ms.juniorLoads w (mc.juniorTime i.difficulty)
    results := ms.results ++ [⟨i, some (.junior, w), mc.juniorTime i.difficulty⟩] }

/-- A row left `UNASSIGNED` (`estimated_time` stays 0). -/
def leaveUnassigned (ms : MapperState) (i : WorkItem) : MapperState :=
  { ms with results := ms.results ++ [⟨i, none, 0⟩] }

/-- Try a within-quota or fallback senior placement: pick the least-loaded
senior who still fits the item. -/
def trySenior (mc : MapperConfig) (ms : MapperState) (i : WorkItem)
    (decQ : Bool) : Option MapperState :=
  (pickWorker ms.seniorLoads (mc.seniorTime i.difficulty) mc.workHoursPerDay).map
    (assignSenior mc ms i decQ)

/-- Try a junior placement. -/
def tryJunior (mc : MapperConfig) (ms : MapperState) (i : WorkItem)
    (decQ : Bool) : Option MapperState :=
  (pickWorker ms.juniorLoads (mc.juniorTime i.difficulty) mc.workHoursPerDay).map
    (assignJunior mc ms i decQ)

/-- One iteration of the assignment loop (lines 85–229 of
`update_assignment_results.py`).

* Line 89: a difficulty absent from `remaining_quota` means `continue` —
  the row keeps its `UNASSIGNED` defaults.
* Lines 98–176: the within-quota stage.  `prefer_senior` is true for the
  high-difficulty band or when `senior_ratio > 0.6`; the float comparison
  `senior_quota / total_quota > 0.6` is rendered exactly as
  `5 * senior_quota > 3 * total_quota`.
* Lines 178–229: if the quota stage assigned nothing, the over-quota
  fallback runs, keyed on the difficulty band only; it does not touch the
  quota counters. -/
def mapperStep (mc : MapperConfig) (ms : MapperState) (i : WorkItem) : MapperState :=
  match planFind ms.quota i.difficulty with
  | none => leaveUnassigned ms i
  | some q =>
    let viaQuota : Option MapperState :=
      if 0 < q.senior + q.junior then
        if (i.difficulty ∈ mc.highDifficultyLevels ∨ 5 * q.senior > 3 * (q.senior + q.junior))
            ∧ 0 < q.senior then
          match trySenior mc ms i true with
          | some ms1 => some ms1
          | none => if 0 < q.junior then tryJunior mc ms i true else none
        else if 0 < q.junior then
          match tryJunior mc ms i true with
          | some ms1 => some ms1
          | none => if 0 < q.senior then trySenior mc ms i true else none
        else if 0 < q.senior then trySenior mc ms i true
        else none
      else none
    match viaQuota with
    | some ms1 => ms1
    | none =>
      if i.difficulty ∈ mc.highDifficultyLevels then
        match trySenior mc ms i false with
        | some ms1 => ms1
        | none =>
          match tryJunior mc ms i false with
          | some ms1 => ms1
          | none => leaveUnassigned ms i
      else
        match tryJunior mc ms i false with
        | some ms1 => ms1
        | none =>
          match trySenior mc ms i false with
          | some ms1 => ms1
          | none => leaveUnassigned ms i

/-- The assignment loop folded over the sorted rows. -/
def mapperRun (mc : MapperConfig) : List WorkItem → MapperState → MapperState
  | [], ms => ms
  | i :: rest, ms => mapperRun mc rest (mapperStep mc ms i)

/-- `assign_workers_to_tasks`: sort the rows by `(priority, difficulty)`,
seed `remaining_quota` with the optimal plan, start every workload at 0,
and run the loop.  `nSenior`/`nJunior` are the roster sizes. -/
def assign_workers_to_tasks (mc : MapperConfig) (plan : Plan)
    (items : List WorkItem) (nSenior nJunior : Nat) : MapperState :=
  mapperRun mc (sortBy byPriorityDifficulty items)
    { quota := plan
      seniorLoads := List.replicate nSenior 0
      juniorLoads := List.replicate nJunior 0
      results := [] }

/-- Minutes of the result rows charged to one concrete worker: the sum of
`estimated_time` over the rows assigned to that worker. -/
def assignedMinutes (rs : List ItemResult) (c : WorkerClass) (w : Nat) : Nat :=
  (rs.map (fun r => if r.assignedWorker = some (c, w) then r.estimatedTime else 0)).sum

end AssignManager

namespace AssignManager

/-- Summary record returned by `StrategyManager.get_strategy_summary`. -/
structure StrategySummary where
  totalCompleted : Nat
  totalSeniorAssigned : Nat
  totalJuniorAssigned : Nat
  seniorUtilization : ℚ
  juniorUtilization : ℚ
  overallUtilization : ℚ
  completionRate : ℚ
  meetsMinimum : Bool
  leftoverSenior : Nat
  leftoverJunior : Nat
deriving DecidableEq

/-- `StrategyManager.get_strategy_summary` (strategy_manager.py, lines
196–222).  A Python `ZeroDivisionError` is modelled as `none`; the guards
appear in the evaluation order of the summary dictionary's fields
(`senior_utilization`, then `junior_utilization`, then
`overall_utilization`, then `completion_rate`, which divides by the row
count `dfLen`).  `sw * H - leftS` is the source's
`senior_time_used = senior_workers * work_hours_per_day - leftover`; in
every reachable state the leftover is at most the capacity, so `Nat`
subtraction agrees with the source. -/
def get_strategy_summary (sw jw H target dfLen : Nat) (plan : Plan)
    (leftS leftJ : Nat) : Option StrategySummary :=
  let totalCompleted := planTotal plan
  let seniorUsed := sw * H - leftS
  let juniorUsed := jw * H - leftJ
  if sw * H = 0 then none
  else if jw * H = 0 then none
  else if (sw + jw) * H = 0 then none
  else if dfLen = 0 then none
  else some
    { totalCompleted := totalCompleted
      totalSeniorAssigned := (plan.map (fun e => e.2.senior)).sum
      totalJuniorAssigned := (plan.map (fun e => e.2.junior)).sum
      seniorUtilization := (seniorUsed : ℚ) / ((sw * H : Nat) : ℚ)
      juniorUtilization := (juniorUsed : ℚ) / ((jw * H : Nat) : ℚ)
      overallUtilization := ((seniorUsed + juniorUsed : Nat) : ℚ) / (((sw + jw) * H : Nat) : ℚ)
      completionRate := (totalCompleted : ℚ) / (dfLen : ℚ)
      meetsMinimum := decide (target ≤ totalCompleted)
      leftoverSenior := leftS
      leftoverJunior := leftJ }

/-- The whole engine on one input: quota plan, leftovers, and the mapper
output.  Used to state determinism over the complete pipeline. -/
structure EngineInput where
  cfg : PlannerConfig
  mc : MapperConfig
  items : List WorkItem
  nSenior : Nat
  nJunior : Nat

/-- One full engine run: `advanced_optimal_strategy` followed by
`assign_workers_to_tasks` on the produced plan. -/
def engineRun (inp : EngineInput) : Plan × Nat × Nat × MapperState :=
  let r := advanced_optimal_strategy inp.cfg inp.items
  (r.1, r.2.1, r.2.2, assign_workers_to_tasks inp.mc r.1 inp.items inp.nSenior inp.nJunior)

/-! Concrete instances used by the scenario theorem, the counterexamples
and the witnesses. -/

/-- Scenario A senior table: difficulty 1 costs a senior 5 minutes. -/
def stA : Nat → Nat := fun d => match d with | 1 => 5 | _ => 1000000

/-- Scenario A junior table: difficulty 1 costs a junior 8 minutes. -/
def jtA : Nat → Nat := fun d => match d with | 1 => 8 | _ => 1000000

/-- Scenario A planner parameters: 1 senior, 1 junior, 480-minute budget. -/
def cfgA : PlannerConfig := ⟨1, 1, 480, 300, stA, jtA⟩

/-- Scenario A mapper globals. -/
def mcA : MapperConfig := ⟨480, stA, jtA, HIGH_DIFFICULTY_LEVELS⟩

/-- Scenario A input: a single difficulty-1 item of mandatory priority 1. -/
def itemsA : List WorkItem := [⟨1, 1⟩]

/-- Mandatory-completeness counterexample tables: difficulty 1 costs
(senior 479, junior 1), difficulty 2 costs (senior 480, junior 720). -/
def stC2 : Nat → Nat := fun d => match d with | 1 => 479 | 2 => 480 | _ => 1000000

/-- Junior table of the mandatory-completeness counterexample. -/
def jtC2 : Nat → Nat := fun d => match d with | 1 => 1 | 2 => 720 | _ => 1000000

/-- Mandatory-completeness counterexample parameters. -/
def cfgC2 : PlannerConfig := ⟨1, 1, 480, 300, stC2, jtC2⟩

/-- Two mandatory items, difficulties 1 and 2. -/
def itemsC2 : List WorkItem := [⟨1, 1⟩, ⟨1, 2⟩]

/-- Phase-3 slice failing input, tables: both difficulties cost senior 5 /
junior 8. -/
def stC3 : Nat → Nat := fun d => match d with | 1 => 5 | 2 => 5 | _ => 1000000

/-- Junior table of the phase-3 slice failing input. -/
def jtC3 : Nat → Nat := fun d => match d with | 1 => 8 | 2 => 8 | _ => 1000000

/-- Phase-3 slice failing input parameters: minimum target 1. -/
def cfgC3 : PlannerConfig := ⟨1, 1, 480, 1, stC3, jtC3⟩

/-- Failing input rows: a priority-2 difficulty-2 row first, then the
priority-1 difficulty-1 row. -/
def itemsC3 : List WorkItem := [⟨2, 2⟩, ⟨1, 1⟩]

/-- Monotonicity counterexample tables (junior = 1.5 × senior): difficulty
1 costs senior 20, difficulty 2 costs senior 5. -/
def stC8 : Nat → Nat := fun d => match d with | 1 => 20 | 2 => 5 | _ => 1000000

/-- Junior table of the monotonicity counterexample. -/
def jtC8 : Nat → Nat := fun d => match d with | 1 => 30 | 2 => 8 | _ => 1000000

/-- Monotonicity counterexample parameters, as a function of the senior
head-count only: everything else is held fixed. -/
def cfgC8 (sw : Nat) : PlannerConfig := ⟨sw, 0, 10, 0, stC8, jtC8⟩

/-- Monotonicity counterexample rows: no mandatory items. -/
def itemsC8 : List WorkItem := [⟨2, 1⟩, ⟨2, 2⟩, ⟨2, 2⟩]

end AssignManager

namespace AssignManager

/-- The mandatory (priority-1) rows of an input. -/
def mandatoryItems (items : List WorkItem) : List WorkItem :=
  items.filter (fun i => i.priority == 1)

/-- Number of mandatory rows. -/
def mandatoryCount (items : List WorkItem) : Nat :=
  (mandatoryItems items).length

/-- Total senior-table minutes of the mandatory rows. -/
def mandatorySeniorMinutes (cfg : PlannerConfig) (items : List WorkItem) : Nat :=
  ((mandatoryItems items).map (fun i => cfg.seniorTime i.difficulty)).sum

/-- Total junior-table minutes of the mandatory rows. -/
def mandatoryJuniorMinutes (cfg : PlannerConfig) (items : List WorkItem) : Nat :=
  ((mandatoryItems items).map (fun i => cfg.juniorTime i.difficulty)).sum

/-- Aggregate capacity of both classes. -/
def totalCapacity (cfg : PlannerConfig) : Nat :=
  (cfg.seniorWorkers + cfg.juniorWorkers) * cfg.workHoursPerDay

/-- Aggregate senior capacity. -/
def seniorCapacity (cfg : PlannerConfig) : Nat :=
  cfg.seniorWorkers * cfg.workHoursPerDay

/-- Single-pool greedy over a list of per-item times: take an item whenever
it still fits the remaining budget.  This is what phase 3 degenerates to
when one of the two classes has no capacity at all. -/
def greedyCount : List Nat → Nat → Nat
  | [], _ => 0
  | t :: ts, r => if t ≤ r then greedyCount ts (r - t) + 1 else greedyCount ts r

end AssignManager

namespace AssignManager

/-- C4: on Scenario A — one senior and one junior worker with 480-minute
budgets, a single mandatory difficulty-1 item costing senior 5 / junior 8 —
`advanced_optimal_strategy` plans the item on the senior class and returns
leftoverSenior = 475 and leftoverJunior = 480; mapping the plan onto the
roster assigns the item to the senior worker with `estimated_time = 5`. -/
theorem scenarioA_expected :
    advanced_optimal_strategy cfgA itemsA = ([(1, ⟨1, 0⟩)], 475, 480)
    ∧ (assign_workers_to_tasks mcA [(1, ⟨1, 0⟩)] itemsA 1 1).results
        = [⟨⟨1, 1⟩, some (.senior, 0), 5⟩] := by
  constructor
  · decide
  · decide

/-- C2 counterexample: an input whose mandatory rows need at most the
aggregate capacity under the senior table (959 ≤ 960), under the junior
table (721 ≤ 960), and are even jointly placeable (item 1 junior, item 2
senior), yet the plan produced by `advanced_optimal_strategy` places only
one of the two mandatory items: the greedy senior-first phase spends the
senior pool on item 1 and then neither class can hold item 2. -/
theorem mandatory_completeness_counterexample :
    mandatorySeniorMinutes cfgC2 itemsC2 ≤ totalCapacity cfgC2
    ∧ mandatoryJuniorMinutes cfgC2 itemsC2 ≤ totalCapacity cfgC2
    ∧ jtC2 1 + stC2 2 ≤ totalCapacity cfgC2
    ∧ planTotal (advanced_optimal_strategy cfgC2 itemsC2).1
        < mandatoryCount itemsC2 := by
  refine ⟨by decide, by decide, by decide, by decide⟩

/-- C3: evaluation of `advanced_optimal_strategy` on the failing input.
The input has exactly one difficulty-1 row (the mandatory one, placed by
phase 1) and one difficulty-2 row that phases 1–2 leave unplaced.  Phase 3
slices `df.iloc[completed_count:]`, i.e. the positional tail of the
ORIGINAL dataframe, which here contains the already-placed difficulty-1 row
and not the unplaced difficulty-2 row: the result plans two items at
difficulty 1 (more than exist) and difficulty 2 never enters the plan. -/
theorem phase3_slice_bug_eval :
    advanced_optimal_strategy cfgC3 itemsC3 = ([(1, ⟨1, 1⟩)], 475, 472)
    ∧ (itemsC3.filter (fun i => i.difficulty == 1)).length = 1
    ∧ planFind (advanced_optimal_strategy cfgC3 itemsC3).1 2 = none := by
  refine ⟨by decide, by decide, by decide⟩

/-- C8 counterexample: with the rows, budget, target and (junior = 1.5 ×
senior) time tables of `cfgC8` held fixed, going from one senior worker to
two drops the planned item count from 2 to 1: the extra capacity lets the
maximization phase spend the whole pool on the expensive difficulty-1 item
instead of the two cheap difficulty-2 items. -/
theorem worker_monotonicity_counterexample :
    planTotal (advanced_optimal_strategy (cfgC8 1) itemsC8).1 = 2
    ∧ planTotal (advanced_optimal_strategy (cfgC8 2) itemsC8).1 = 1 := by
  refine ⟨by decide, by decide⟩

end AssignManager

namespace AssignManager

theorem planTotal_bumpSenior (p : Plan) (d : Nat) :
    planTotal (bumpSenior p d) = planTotal p + 1 := by
  induction p with
  | nil => simp [bumpSenior, planTotal]
  | cons e rest ih =>
    by_cases h : e.1 = d
    · simp [bumpSenior, h, planTotal]
      omega
    · simp [bumpSenior, h, planTotal] at ih ⊢
      omega

theorem planTotal_bumpJunior (p : Plan) (d : Nat) :
    planTotal (bumpJunior p d) = planTotal p + 1 := by
  induction p with
  | nil => simp [bumpJunior, planTotal]
  | cons e rest ih =>
    by_cases h : e.1 = d
    · simp [bumpJunior, h, planTotal]
      omega
    · simp [bumpJunior, h, planTotal] at ih ⊢
      omega

theorem planSeniorMinutes_bumpSenior (st : Nat → Nat) (p : Plan) (d : Nat) :
    planSeniorMinutes st (bumpSenior p d) = planSeniorMinutes st p + st d := by
  induction p with
  | nil => simp [bumpSenior, planSeniorMinutes]
  | cons e rest ih =>
    by_cases h : e.1 = d
    · simp [bumpSenior, h, planSeniorMinutes]
      subst h
      ring
    · simp [bumpSenior, h, planSeniorMinutes] at ih ⊢
      omega

theorem planSeniorMinutes_bumpJunior (st : Nat → Nat) (p : Plan) (d : Nat) :
    planSeniorMinutes st (bumpJunior p d) = planSeniorMinutes st p := by
  induction p with
  | nil => simp [bumpJunior, planSeniorMinutes]
  | cons e rest ih =>
    by_cases h : e.1 = d
    · simp [bumpJunior, h, planSeniorMinutes]
    · simp [bumpJunior, h, planSeniorMinutes] at ih ⊢
      omega

theorem planJuniorMinutes_bumpJunior (jt : Nat → Nat) (p : Plan) (d : Nat) :
    planJuniorMinutes jt (bumpJunior p d) = planJuniorMinutes jt p + jt d := by
  induction p with
  | nil => simp [bumpJunior, planJuniorMinutes]
  | cons e rest ih =>
    by_cases h : e.1 = d
    · simp [bumpJunior, h, planJuniorMinutes]
      subst h
      ring
    · simp [bumpJunior, h, planJuniorMinutes] at ih ⊢
      omega

theorem planJuniorMinutes_bumpSenior (jt : Nat → Nat) (p : Plan) (d : Nat) :
    planJuniorMinutes jt (bumpSenior p d) = planJuniorMinutes jt p := by
  induction p with
  | nil => simp [bumpSenior, planJuniorMinutes]
  | cons e rest ih =>
    by_cases h : e.1 = d
    · simp [bumpSenior, h, planJuniorMinutes]
    · simp [bumpSenior, h, planJuniorMinutes] at ih ⊢
      omega

theorem mem_insertLe (le : α → α → Bool) (x a : α) (l : List α) :
    a ∈ insertLe le x l ↔ a = x ∨ a ∈ l := by
  induction l with
  | nil => simp [insertLe]
  | cons y ys ih =>
    by_cases h : le x y
    · simp [insertLe, h]
    · simp [insertLe, h, ih]
      tauto

theorem mem_sortBy (le : α → α → Bool) (a : α) (l : List α) :
    a ∈ sortBy le l ↔ a ∈ l := by
  induction l with
  | nil => simp [sortBy]
  | cons y ys ih =>
    simp only [sortBy, List.foldr] at ih ⊢
    rw [mem_insertLe]
    simp [ih]

theorem length_insertLe (le : α → α → Bool) (x : α) (l : List α) :
    (insertLe le x l).length = l.length + 1 := by
  induction l with
  | nil => simp [insertLe]
  | cons y ys ih =>
    by_cases h : le x y
    · simp [insertLe, h]
    · simp [insertLe, h, ih]

theorem length_sortBy (le : α → α → Bool) (l : List α) :
    (sortBy le l).length = l.length := by
  induction l with
  | nil => simp [sortBy]
  | cons y ys ih =>
    simp only [sortBy, List.foldr] at ih ⊢
    rw [length_insertLe]
    simp [ih]

theorem sum_map_insertLe (le : α → α → Bool) (f : α → Nat) (x : α) (l : List α) :
    ((insertLe le x l).map f).sum = f x + (l.map f).sum := by
  induction l with
  | nil => simp [insertLe]
  | cons y ys ih =>
    by_cases h : le x y
    · simp [insertLe, h]
    · simp [insertLe, h, ih]
      omega

theorem sum_map_sortBy (le : α → α → Bool) (f : α → Nat) (l : List α) :
    ((sortBy le l).map f).sum = (l.map f).sum := by
  induction l with
  | nil => simp [sortBy]
  | cons y ys ih =>
    simp only [sortBy, List.foldr] at ih ⊢
    rw [sum_map_insertLe]
    simp [ih]

end AssignManager

namespace AssignManager

theorem phase1_foldl_stats (cfg : PlannerConfig) :
    ∀ (l : List WorkItem) (s : PlannerState),
      ((l.foldl (phase1Step cfg) s).p1Completed + (l.foldl (phase1Step cfg) s).warnings
          = s.p1Completed + s.warnings + l.length)
      ∧ ((l.foldl (phase1Step cfg) s).completed + s.p1Completed
          = s.completed + (l.foldl (phase1Step cfg) s).p1Completed)
      ∧ (planTotal (l.foldl (phase1Step cfg) s).assignment + s.completed
          = planTotal s.assignment + (l.foldl (phase1Step cfg) s).completed)
      ∧ (planSeniorMinutes cfg.seniorTime (l.foldl (phase1Step cfg) s).assignment
            + (l.foldl (phase1Step cfg) s).remSenior
          = planSeniorMinutes cfg.seniorTime s.assignment + s.remSenior)
      ∧ (planJuniorMinutes cfg.juniorTime (l.foldl (phase1Step cfg) s).assignment
            + (l.foldl (phase1Step cfg) s).remJunior
          = planJuniorMinutes cfg.juniorTime s.assignment + s.remJunior) := by
  intro l
  induction l with
  | nil => intro s; simp
  | cons i rest ih =>
    intro s
    simp only [List.foldl_cons, List.length_cons]
    have IH := ih (phase1Step cfg s i)
    by_cases h1 : cfg.seniorTime i.difficulty ≤ s.remSenior
    · simp only [phase1Step, if_pos h1] at IH ⊢
      rw [planTotal_bumpSenior, planSeniorMinutes_bumpSenior,
        planJuniorMinutes_bumpSenior] at IH
      omega
    · by_cases h2 : cfg.juniorTime i.difficulty ≤ s.remJunior
      · simp only [phase1Step, if_neg h1, if_pos h2] at IH ⊢
        rw [planTotal_bumpJunior, planSeniorMinutes_bumpJunior,
          planJuniorMinutes_bumpJunior] at IH
        omega
      · simp only [phase1Step, if_neg h1, if_neg h2] at IH ⊢
        omega

theorem phase1_foldl_all (cfg : PlannerConfig) :
    ∀ (l : List WorkItem) (s : PlannerState),
      (l.map (fun i => cfg.seniorTime i.difficulty)).sum ≤ s.remSenior →
        ((l.foldl (phase1Step cfg) s).p1Completed = s.p1Completed + l.length
        ∧ (l.foldl (phase1Step cfg) s).warnings = s.warnings) := by
  intro l
  induction l with
  | nil => intro s _; simp
  | cons i rest ih =>
    intro s hsum
    simp only [List.map_cons, List.sum_cons] at hsum
    have h1 : cfg.seniorTime i.difficulty ≤ s.remSenior := by omega
    simp only [List.foldl_cons, List.length_cons]
    have IH := ih (phase1Step cfg s i) (by
      simp only [phase1Step, if_pos h1]
      omega)
    simp only [phase1Step, if_pos h1] at IH ⊢
    omega

theorem phase2Go_stop (cfg : PlannerConfig) (l : List WorkItem) (s : PlannerState)
    (h : cfg.minimumWorkTarget ≤ s.completed) : phase2Go cfg l s = s := by
  cases l with
  | nil => rfl
  | cons i rest => simp [phase2Go, if_pos h]

theorem p2Senior_parts (cfg : PlannerConfig) (s : PlannerState) (i : WorkItem) :
    (p2Senior cfg s i).assignment = bumpSenior s.assignment i.difficulty
    ∧ (p2Senior cfg s i).remSenior = s.remSenior - cfg.seniorTime i.difficulty
    ∧ (p2Senior cfg s i).remJunior = s.remJunior
    ∧ (p2Senior cfg s i).completed = s.completed + 1
    ∧ (p2Senior cfg s i).p1Completed = s.p1Completed
    ∧ (p2Senior cfg s i).warnings = s.warnings :=
  ⟨rfl, rfl, rfl, rfl, rfl, rfl⟩

theorem p2Junior_parts (cfg : PlannerConfig) (s : PlannerState) (i : WorkItem) :
    (p2Junior cfg s i).assignment = bumpJunior s.assignment i.difficulty
    ∧ (p2Junior cfg s i).remSenior = s.remSenior
    ∧ (p2Junior cfg s i).remJunior = s.remJunior - cfg.juniorTime i.difficulty
    ∧ (p2Junior cfg s i).completed = s.completed + 1
    ∧ (p2Junior cfg s i).p1Completed = s.p1Completed
    ∧ (p2Junior cfg s i).warnings = s.warnings :=
  ⟨rfl, rfl, rfl, rfl, rfl, rfl⟩

theorem p3Senior_parts (cfg : PlannerConfig) (s : PlannerState) (i : WorkItem) :
    (p3Senior cfg s i).assignment = bumpSenior s.assignment i.difficulty
    ∧ (p3Senior cfg s i).remSenior = s.remSenior - cfg.seniorTime i.difficulty
    ∧ (p3Senior cfg s i).remJunior = s.remJunior
    ∧ (p3Senior cfg s i).completed = s.completed + 1
    ∧ (p3Senior cfg s i).p1Completed = s.p1Completed
    ∧ (p3Senior cfg s i).warnings = s.warnings :=
  ⟨rfl, rfl, rfl, rfl, rfl, rfl⟩

theorem p3Junior_parts (cfg : PlannerConfig) (s : PlannerState) (i : WorkItem) :
    (p3Junior cfg s i).assignment = bumpJunior s.assignment i.difficulty
    ∧ (p3Junior cfg s i).remSenior = s.remSenior
    ∧ (p3Junior cfg s i).remJunior = s.remJunior - cfg.juniorTime i.difficulty
    ∧ (p3Junior cfg s i).completed = s.completed + 1
    ∧ (p3Junior cfg s i).p1Completed = s.p1Completed
    ∧ (p3Junior cfg s i).warnings = s.warnings :=
  ⟨rfl, rfl, rfl, rfl, rfl, rfl⟩

theorem phase2Go_completed_le_max (cfg : PlannerConfig) :
    ∀ (l : List WorkItem) (s : PlannerState),
      (phase2Go cfg l s).completed ≤ max s.completed cfg.minimumWorkTarget := by
  intro l
  induction l with
  | nil => intro s; simp [phase2Go]
  | cons i rest ih =>
    intro s
    by_cases h : cfg.minimumWorkTarget ≤ s.completed
    · rw [phase2Go_stop cfg _ s h]
      exact Nat.le_max_left _ _
    · simp only [phase2Go, if_neg h]
      have hS := (p2Senior_parts cfg s i).2.2.2.1
      have hJ := (p2Junior_parts cfg s i).2.2.2.1
      by_cases h1 : cfg.seniorTime i.difficulty ≤ s.remSenior
      · by_cases h2 : cfg.juniorTime i.difficulty ≤ s.remJunior
        · by_cases h3 : cfg.seniorTime i.difficulty ≤ cfg.juniorTime i.difficulty
          · simp only [if_pos h1, if_pos h2, if_pos h3]
            have := ih (p2Senior cfg s i)
            rw [hS] at this
            omega
          · simp only [if_pos h1, if_pos h2, if_neg h3]
            have := ih (p2Junior cfg s i)
            rw [hJ] at this
            omega
        · simp only [if_pos h1, if_neg h2]
          have := ih (p2Senior cfg s i)
          rw [hS] at this
          omega
      · by_cases h2 : cfg.juniorTime i.difficulty ≤ s.remJunior
        · simp only [if_neg h1, if_pos h2]
          have := ih (p2Junior cfg s i)
          rw [hJ] at this
          omega
        · simp only [if_neg h1, if_neg h2]
          have := ih s
          omega

theorem phase2Go_stats (cfg : PlannerConfig) :
    ∀ (l : List WorkItem) (s : PlannerState),
      (s.completed ≤ (phase2Go cfg l s).completed)
      ∧ (planTotal (phase2Go cfg l s).assignment + s.completed
          = planTotal s.assignment + (phase2Go cfg l s).completed)
      ∧ ((phase2Go cfg l s).p1Completed = s.p1Completed)
      ∧ ((phase2Go cfg l s).warnings = s.warnings) := by
  intro l
  induction l with
  | nil => intro s; simp [phase2Go]
  | cons i rest ih =>
    intro s
    by_cases h : cfg.minimumWorkTarget ≤ s.completed
    · rw [phase2Go_stop cfg _ s h]
      simp
    · simp only [phase2Go, if_neg h]
      by_cases h1 : cfg.seniorTime i.difficulty ≤ s.remSenior
      · by_cases h2 : cfg.juniorTime i.difficulty ≤ s.remJunior
        · by_cases h3 : cfg.seniorTime i.difficulty ≤ cfg.juniorTime i.difficulty
          · simp only [if_pos h1, if_pos h2, if_pos h3]
            have := ih (p2Senior cfg s i)
            obtain ⟨e1, e2, e3, e4, e5, e6⟩ := p2Senior_parts cfg s i
            rw [e1, e4, e5, e6, planTotal_bumpSenior] at this
            omega
          · simp only [if_pos h1, if_pos h2, if_neg h3]
            have := ih (p2Junior cfg s i)
            obtain ⟨e1, e2, e3, e4, e5, e6⟩ := p2Junior_parts cfg s i
            rw [e1, e4, e5, e6, planTotal_bumpJunior] at this
            omega
        · simp only [if_pos h1, if_neg h2]
          have := ih (p2Senior cfg s i)
          obtain ⟨e1, e2, e3, e4, e5, e6⟩ := p2Senior_parts cfg s i
          rw [e1, e4, e5, e6, planTotal_bumpSenior] at this
          omega
      · by_cases h2 : cfg.juniorTime i.difficulty ≤ s.remJunior
        · simp only [if_neg h1, if_pos h2]
          have := ih (p2Junior cfg s i)
          obtain ⟨e1, e2, e3, e4, e5, e6⟩ := p2Junior_parts cfg s i
          rw [e1, e4, e5, e6, planTotal_bumpJunior] at this
          omega
        · simp only [if_neg h1, if_neg h2]
          exact ih s

theorem phase3Go_stats (cfg : PlannerConfig) :
    ∀ (l : List WorkItem) (s : PlannerState),
      (s.completed ≤ (phase3Go cfg l s).completed)
      ∧ (planTotal (phase3Go cfg l s).assignment + s.completed
          = planTotal s.assignment + (phase3Go cfg l s).completed)
      ∧ ((phase3Go cfg l s).p1Completed = s.p1Completed)
      ∧ ((phase3Go cfg l s).warnings = s.warnings) := by
  intro l
  induction l with
  | nil => intro s; simp [phase3Go]
  | cons i rest ih =>
    intro s
    simp only [phase3Go]
    by_cases h2 : cfg.juniorTime i.difficulty ≤ s.remJunior
    · simp only [if_pos h2]
      have := ih (p3Junior cfg s i)
      obtain ⟨e1, e2, e3, e4, e5, e6⟩ := p3Junior_parts cfg s i
      rw [e1, e4, e5, e6, planTotal_bumpJunior] at this
      omega
    · by_cases h1 : cfg.seniorTime i.difficulty ≤ s.remSenior
      · simp only [if_neg h2, if_pos h1]
        have := ih (p3Senior cfg s i)
        obtain ⟨e1, e2, e3, e4, e5, e6⟩ := p3Senior_parts cfg s i
        rw [e1, e4, e5, e6, planTotal_bumpSenior] at this
        omega
      · simp only [if_neg h2, if_neg h1]
        exact ih s

theorem phase3_stats (cfg : PlannerConfig) (items : List WorkItem) (s : PlannerState) :
    (s.completed ≤ (phase3 cfg items s).completed)
    ∧ (planTotal (phase3 cfg items s).assignment + s.completed
        = planTotal s.assignment + (phase3 cfg items s).completed)
    ∧ ((phase3 cfg items s).p1Completed = s.p1Completed)
    ∧ ((phase3 cfg items s).warnings = s.warnings) := by
  unfold phase3
  by_cases h : s.completed < items.length
  · simp only [if_pos h]
    exact phase3Go_stats cfg _ s
  · simp only [if_neg h]
    simp

end AssignManager

namespace AssignManager

theorem initState_parts (cfg : PlannerConfig) :
    (initState cfg).assignment = []
    ∧ (initState cfg).remSenior = cfg.seniorWorkers * cfg.workHoursPerDay
    ∧ (initState cfg).remJunior = cfg.juniorWorkers * cfg.workHoursPerDay
    ∧ (initState cfg).completed = 0
    ∧ (initState cfg).p1Completed = 0
    ∧ (initState cfg).warnings = 0 :=
  ⟨rfl, rfl, rfl, rfl, rfl, rfl⟩

theorem advanced_planTotal_eq (cfg : PlannerConfig) (items : List WorkItem) :
    planTotal (advanced_optimal_strategy cfg items).1
      = (phase3 cfg items (phase2Go cfg
          (sortBy byPriorityDifficulty (items.filter (fun i => i.priority != 1)))
          (phase1 cfg items))).completed := by
  have h1 := (phase1_foldl_stats cfg
    (sortBy byDifficulty (items.filter (fun i => i.priority == 1))) (initState cfg)).2.2.1
  obtain ⟨e1, e2, e3, e4, e5, e6⟩ := initState_parts cfg
  have pnil : planTotal ([] : Plan) = 0 := rfl
  rw [e1, e4, pnil] at h1
  have h2 := (phase2Go_stats cfg
    (sortBy byPriorityDifficulty (items.filter (fun i => i.priority != 1)))
    (phase1 cfg items)).2.1
  have h3 := (phase3_stats cfg items (phase2Go cfg
    (sortBy byPriorityDifficulty (items.filter (fun i => i.priority != 1)))
    (phase1 cfg items))).2.1
  simp only [advanced_optimal_strategy]
  have hp1 : planTotal (phase1 cfg items).assignment = (phase1 cfg items).completed := by
    unfold phase1
    omega
  omega

theorem advanced_completed_ge_phase1 (cfg : PlannerConfig) (items : List WorkItem) :
    (phase1 cfg items).completed
      ≤ planTotal (advanced_optimal_strategy cfg items).1 := by
  rw [advanced_planTotal_eq]
  have h2 := (phase2Go_stats cfg
    (sortBy byPriorityDifficulty (items.filter (fun i => i.priority != 1)))
    (phase1 cfg items)).1
  have h3 := (phase3_stats cfg items (phase2Go cfg
    (sortBy byPriorityDifficulty (items.filter (fun i => i.priority != 1)))
    (phase1 cfg items))).1
  omega

/-- C2 (amended): if the mandatory rows' total senior-table minutes fit the
senior capacity alone, phase 1 places every mandatory item (its own
completion counter reaches the mandatory count, no warning fires), and the
final plan of `advanced_optimal_strategy` contains at least that many
placements. -/
theorem mandatory_complete_when_senior_capacity (cfg : PlannerConfig)
    (items : List WorkItem)
    (h : mandatorySeniorMinutes cfg items ≤ seniorCapacity cfg) :
    (phase1 cfg items).p1Completed = mandatoryCount items
    ∧ (phase1 cfg items).warnings = 0
    ∧ mandatoryCount items ≤ planTotal (advanced_optimal_strategy cfg items).1 := by
  obtain ⟨e1, e2, e3, e4, e5, e6⟩ := initState_parts cfg
  have hsum : ((sortBy byDifficulty (items.filter (fun i => i.priority == 1))).map
      (fun i => cfg.seniorTime i.difficulty)).sum ≤ (initState cfg).remSenior := by
    rw [sum_map_sortBy, e2]
    exact h
  have hall := phase1_foldl_all cfg
    (sortBy byDifficulty (items.filter (fun i => i.priority == 1))) (initState cfg) hsum
  have hlen : (sortBy byDifficulty (items.filter (fun i => i.priority == 1))).length
      = mandatoryCount items := by
    rw [length_sortBy]
    rfl
  rw [e5, e6, hlen] at hall
  have hc : (phase1 cfg items).completed = (phase1 cfg items).p1Completed := by
    have hst := (phase1_foldl_stats cfg
      (sortBy byDifficulty (items.filter (fun i => i.priority == 1))) (initState cfg)).2.1
    rw [e4, e5] at hst
    unfold phase1
    omega
  have hge := advanced_completed_ge_phase1 cfg items
  unfold phase1 at hc hge ⊢
  refine ⟨by omega, by omega, by omega⟩

/-- C2 (amended) witness at Scenario A: the single mandatory item costs 5
senior minutes against a 480-minute senior pool. -/
theorem mandatory_complete_witness :
    (phase1 cfgA itemsA).p1Completed = mandatoryCount itemsA
    ∧ (phase1 cfgA itemsA).warnings = 0
    ∧ mandatoryCount itemsA ≤ planTotal (advanced_optimal_strategy cfgA itemsA).1 :=
  mandatory_complete_when_senior_capacity cfgA itemsA (by decide)

end AssignManager

namespace AssignManager

/-- C6: discipline of the mandatory phase.  Every mandatory item is either
placed (counted by `p1Completed`) or skipped with a warning recorded —
their totals always account for the whole mandatory set, so a capacity
shortfall is soft: the fold is total, no error path exists.  The plan holds
exactly the placed items, its minutes plus the leftovers reconstruct both
capacities, the full run still returns a plan containing at least the
phase-1 placements, and each step prefers senior capacity, falls back to
junior, and otherwise only increments the warning counter. -/
theorem phase1_soft_failure_discipline (cfg : PlannerConfig) (items : List WorkItem) :
    ((phase1 cfg items).p1Completed + (phase1 cfg items).warnings = mandatoryCount items)
    ∧ ((phase1 cfg items).completed = (phase1 cfg items).p1Completed)
    ∧ (planTotal (phase1 cfg items).assignment = (phase1 cfg items).p1Completed)
    ∧ (planSeniorMinutes cfg.seniorTime (phase1 cfg items).assignment
        + (phase1 cfg items).remSenior = seniorCapacity cfg)
    ∧ (planJuniorMinutes cfg.juniorTime (phase1 cfg items).assignment
        + (phase1 cfg items).remJunior = cfg.juniorWorkers * cfg.workHoursPerDay)
    ∧ ((phase1 cfg items).p1Completed ≤ planTotal (advanced_optimal_strategy cfg items).1)
    ∧ (∀ (s : PlannerState) (i : WorkItem),
        (cfg.seniorTime i.difficulty ≤ s.remSenior →
          phase1Step cfg s i
            = { s with assignment := bumpSenior s.assignment i.difficulty
                       remSenior := s.remSenior - cfg.seniorTime i.difficulty
                       completed := s.completed + 1
                       p1Completed := s.p1Completed + 1 })
        ∧ (¬ cfg.seniorTime i.difficulty ≤ s.remSenior →
            cfg.juniorTime i.difficulty ≤ s.remJunior →
            phase1Step cfg s i
              = { s with assignment := bumpJunior s.assignment i.difficulty
                         remJunior := s.remJunior - cfg.juniorTime i.difficulty
                         completed := s.completed + 1
                         p1Completed := s.p1Completed + 1 })
        ∧ (¬ cfg.seniorTime i.difficulty ≤ s.remSenior →
            ¬ cfg.juniorTime i.difficulty ≤ s.remJunior →
            phase1Step cfg s i = { s with warnings := s.warnings + 1 })) := by
  obtain ⟨e1, e2, e3, e4, e5, e6⟩ := initState_parts cfg
  have pnil : planTotal ([] : Plan) = 0 := rfl
  have snil : planSeniorMinutes cfg.seniorTime ([] : Plan) = 0 := rfl
  have jnil : planJuniorMinutes cfg.juniorTime ([] : Plan) = 0 := rfl
  have hst := phase1_foldl_stats cfg
    (sortBy byDifficulty (items.filter (fun i => i.priority == 1))) (initState cfg)
  rw [e1, e2, e3, e4, e5, e6, pnil, snil, jnil] at hst
  have hlen : (sortBy byDifficulty (items.filter (fun i => i.priority == 1))).length
      = mandatoryCount items := by
    rw [length_sortBy]
    rfl
  rw [hlen] at hst
  have hge := advanced_completed_ge_phase1 cfg items
  refine ⟨?_, ?_, ?_, ?_, ?_, ?_, ?_⟩
  · unfold phase1
    omega
  · unfold phase1
    omega
  · unfold phase1
    omega
  · unfold phase1 seniorCapacity
    omega
  · unfold phase1
    omega
  · unfold phase1 at hge ⊢
    omega
  · intro s i
    refine ⟨?_, ?_, ?_⟩
    · intro h1
      simp only [phase1Step, if_pos h1]
    · intro h1 h2
      simp only [phase1Step, if_neg h1, if_pos h2]
    · intro h1 h2
      simp only [phase1Step, if_neg h1, if_neg h2]

/-- C6 witness at Scenario A, plus the warning branch exercised at a
zero-capacity state. -/
theorem phase1_soft_failure_witness :
    (phase1 cfgA itemsA).p1Completed + (phase1 cfgA itemsA).warnings
      = mandatoryCount itemsA :=
  (phase1_soft_failure_discipline cfgA itemsA).1

/-- C5: in the target-fulfilment phase, once the running completed count
has reached the minimum target the loop adds nothing (returns the state
unchanged), the completed count never exceeds `max` of its entry value and
the target, and each considered item goes to the class with the smaller
per-item time when both fit (ties to senior), to the single fitting class
otherwise, and is skipped when neither fits. -/
theorem phase2_target_and_choice (cfg : PlannerConfig) :
    (∀ (l : List WorkItem) (s : PlannerState),
        cfg.minimumWorkTarget ≤ s.completed → phase2Go cfg l s = s)
    ∧ (∀ (l : List WorkItem) (s : PlannerState),
        (phase2Go cfg l s).completed ≤ max s.completed cfg.minimumWorkTarget)
    ∧ (∀ (s : PlannerState) (i : WorkItem) (rest : List WorkItem),
        s.completed < cfg.minimumWorkTarget →
          ((cfg.seniorTime i.difficulty ≤ s.remSenior →
            cfg.juniorTime i.difficulty ≤ s.remJunior →
            cfg.seniorTime i.difficulty ≤ cfg.juniorTime i.difficulty →
              phase2Go cfg (i :: rest) s = phase2Go cfg rest (p2Senior cfg s i))
          ∧ (cfg.seniorTime i.difficulty ≤ s.remSenior →
             cfg.juniorTime i.difficulty ≤ s.remJunior →
             cfg.juniorTime i.difficulty < cfg.seniorTime i.difficulty →
              phase2Go cfg (i :: rest) s = phase2Go cfg rest (p2Junior cfg s i))
          ∧ (cfg.seniorTime i.difficulty ≤ s.remSenior →
             ¬ cfg.juniorTime i.difficulty ≤ s.remJunior →
              phase2Go cfg (i :: rest) s = phase2Go cfg rest (p2Senior cfg s i))
          ∧ (¬ cfg.seniorTime i.difficulty ≤ s.remSenior →
             cfg.juniorTime i.difficulty ≤ s.remJunior →
              phase2Go cfg (i :: rest) s = phase2Go cfg rest (p2Junior cfg s i))
          ∧ (¬ cfg.seniorTime i.difficulty ≤ s.remSenior →
             ¬ cfg.juniorTime i.difficulty ≤ s.remJunior →
              phase2Go cfg (i :: rest) s = phase2Go cfg rest s))) := by
  refine ⟨phase2Go_stop cfg, phase2Go_completed_le_max cfg, ?_⟩
  intro s i rest h
  have hn : ¬ cfg.minimumWorkTarget ≤ s.completed := by omega
  refine ⟨?_, ?_, ?_, ?_, ?_⟩
  · intro h1 h2 h3
    simp only [phase2Go, if_neg hn, if_pos h1, if_pos h2, if_pos h3]
  · intro h1 h2 h3
    have h3n : ¬ cfg.seniorTime i.difficulty ≤ cfg.juniorTime i.difficulty := by omega
    simp only [phase2Go, if_neg hn, if_pos h1, if_pos h2, if_neg h3n]
  · intro h1 h2
    simp only [phase2Go, if_neg hn, if_pos h1, if_neg h2]
  · intro h1 h2
    simp only [phase2Go, if_neg hn, if_neg h1, if_pos h2]
  · intro h1 h2
    simp only [phase2Go, if_neg hn, if_neg h1, if_neg h2]

/-- C5 witness: the stop rule applied at a concrete state whose completed
count already equals the target of `cfgA`. -/
theorem phase2_target_witness :
    phase2Go cfgA [⟨2, 1⟩] ⟨[], 480, 480, 300, 0, 0⟩ = ⟨[], 480, 480, 300, 0, 0⟩ :=
  (phase2_target_and_choice cfgA).1 [⟨2, 1⟩] ⟨[], 480, 480, 300, 0, 0⟩ (by decide)

end AssignManager

namespace AssignManager

/-- C7: determinism of the engine.  The embedded pipeline — quota planner
followed by worker mapper — is a pure function of its input: two runs on
equal work items, rosters and configuration return equal plans, equal
leftovers and equal per-item results.  This is faithful to the source: the
only `random` import is unused, the dictionaries iterate in insertion
order, and the sorts are deterministic. -/
theorem engine_determinism (a b : EngineInput) (h : a = b) :
    engineRun a = engineRun b := by
  rw [h]

/-- C7 witness: two runs on the Scenario A input coincide. -/
theorem engine_determinism_witness :
    engineRun ⟨cfgA, mcA, itemsA, 1, 1⟩ = engineRun ⟨cfgA, mcA, itemsA, 1, 1⟩ :=
  engine_determinism ⟨cfgA, mcA, itemsA, 1, 1⟩ ⟨cfgA, mcA, itemsA, 1, 1⟩ rfl

/-- C9: `get_strategy_summary` is not total over valid rosters: with a
positive daily budget (and a non-empty dataset, which the later
`completion_rate` division needs), it hits the zero division — modelled as
`none` — exactly when one of the two classes has zero workers; with at
least one worker in each class the utilization denominators are positive
and a summary is returned. -/
theorem get_strategy_summary_zero_division (sw jw H target dfLen : Nat)
    (plan : Plan) (leftS leftJ : Nat) (hH : 0 < H) (hdf : 0 < dfLen) :
    (get_strategy_summary sw jw H target dfLen plan leftS leftJ = none
      ↔ sw = 0 ∨ jw = 0) := by
  have k1 : (sw * H = 0) ↔ sw = 0 := by
    rw [Nat.mul_eq_zero]
    omega
  have k2 : (jw * H = 0) ↔ jw = 0 := by
    rw [Nat.mul_eq_zero]
    omega
  have k3 : ((sw + jw) * H = 0) ↔ sw + jw = 0 := by
    rw [Nat.mul_eq_zero]
    omega
  unfold get_strategy_summary
  split_ifs with h1 h2 h3 h4
  · rw [k1] at h1
    simp [h1]
  · rw [k2] at h2
    simp [h2]
  · rw [k3] at h3
    constructor
    · intro _
      omega
    · intro _
      rfl
  · exact absurd h4 (by omega)
  · rw [k1] at h1
    rw [k2] at h2
    simp [h1, h2]

/-- C9 witness: a roster with zero senior workers makes the summary hit the
division by zero. -/
theorem get_strategy_summary_zero_division_witness :
    get_strategy_summary 0 1 480 300 5 [] 0 0 = none :=
  (get_strategy_summary_zero_division 0 1 480 300 5 [] 0 0 (by decide)
    (by decide)).mpr (Or.inl rfl)

end AssignManager

namespace AssignManager

theorem greedyCount_zero (ts : List Nat) (r : Nat) (h : ∀ t ∈ ts, r < t) :
    greedyCount ts r = 0 := by
  induction ts with
  | nil => rfl
  | cons t ts ih =>
    have hn : ¬ t ≤ r := by
      have := h t (by simp)
      omega
    simp only [greedyCount, if_neg hn]
    exact ih (fun u hu => h u (by simp [hu]))

theorem greedyCount_mono (ts : List Nat) :
    ts.Sorted (· ≤ ·) → ∀ r1 r2, r1 ≤ r2 → greedyCount ts r1 ≤ greedyCount ts r2 := by
  induction ts with
  | nil => intro _ r1 r2 _; simp [greedyCount]
  | cons t ts ih =>
    intro hs r1 r2 hr
    rw [List.sorted_cons] at hs
    obtain ⟨ht, hts⟩ := hs
    by_cases h1 : t ≤ r1
    · have h2 : t ≤ r2 := le_trans h1 hr
      simp only [greedyCount, if_pos h1, if_pos h2]
      have := ih hts (r1 - t) (r2 - t) (by omega)
      omega
    · by_cases h2 : t ≤ r2
      · simp only [greedyCount, if_neg h1, if_pos h2]
        have hz : greedyCount ts r1 = 0 :=
          greedyCount_zero ts r1 (fun u hu => by
            have := ht u hu
            omega)
        omega
      · simp only [greedyCount, if_neg h1, if_neg h2]
        exact ih hts r1 r2 hr

theorem insertLe_byDifficulty_sorted (x : WorkItem) (l : List WorkItem)
    (h : l.Sorted (fun a b => a.difficulty ≤ b.difficulty)) :
    (insertLe byDifficulty x l).Sorted (fun a b => a.difficulty ≤ b.difficulty) := by
  induction l with
  | nil => simp [insertLe]
  | cons y ys ih =>
    rw [List.sorted_cons] at h
    obtain ⟨hy, hys⟩ := h
    by_cases hxy : byDifficulty x y
    · simp only [insertLe, if_pos hxy]
      simp only [byDifficulty, decide_eq_true_eq] at hxy
      rw [List.sorted_cons]
      constructor
      · intro b hb
        rw [List.mem_cons] at hb
        rcases hb with rfl | hb
        · omega
        · have := hy b hb
          omega
      · rw [List.sorted_cons]
        exact ⟨hy, hys⟩
    · simp only [insertLe, if_neg hxy]
      simp only [byDifficulty, decide_eq_true_eq] at hxy
      rw [List.sorted_cons]
      constructor
      · intro b hb
        rw [mem_insertLe] at hb
        rcases hb with rfl | hb
        · omega
        · exact hy b hb
      · exact ih hys

theorem sortBy_byDifficulty_sorted (l : List WorkItem) :
    (sortBy byDifficulty l).Sorted (fun a b => a.difficulty ≤ b.difficulty) := by
  induction l with
  | nil => simp [sortBy]
  | cons y ys ih =>
    simp only [sortBy, List.foldr] at ih ⊢
    exact insertLe_byDifficulty_sorted y _ ih

theorem phase3Go_junior_only (cfg : PlannerConfig) :
    ∀ (L : List WorkItem) (s : PlannerState), s.remSenior = 0 →
      (∀ i ∈ L, 0 < cfg.seniorTime i.difficulty) →
      (phase3Go cfg L s).completed
        = s.completed
          + greedyCount (L.map fun i => cfg.juniorTime i.difficulty) s.remJunior := by
  intro L
  induction L with
  | nil => intro s _ _; simp [phase3Go, greedyCount]
  | cons i rest ih =>
    intro s hs hpos
    simp only [phase3Go, List.map_cons]
    by_cases h2 : cfg.juniorTime i.difficulty ≤ s.remJunior
    · simp only [if_pos h2]
      obtain ⟨e1, e2, e3, e4, e5, e6⟩ := p3Junior_parts cfg s i
      have := ih (p3Junior cfg s i) (by rw [e2]; exact hs)
        (fun j hj => hpos j (by simp [hj]))
      rw [e3, e4] at this
      simp only [greedyCount, if_pos h2]
      omega
    · have h1 : ¬ cfg.seniorTime i.difficulty ≤ s.remSenior := by
        have := hpos i (by simp)
        omega
      simp only [if_neg h2, if_neg h1]
      have := ih s hs (fun j hj => hpos j (by simp [hj]))
      simp only [greedyCount, if_neg h2]
      omega

theorem advanced_junior_only_count (cfg : PlannerConfig) (items : List WorkItem)
    (hnop1 : ∀ i ∈ items, i.priority ≠ 1)
    (htarget : cfg.minimumWorkTarget = 0)
    (hsw : cfg.seniorWorkers = 0)
    (hstpos : ∀ i ∈ items, 0 < cfg.seniorTime i.difficulty) :
    planTotal (advanced_optimal_strategy cfg items).1
      = greedyCount ((sortBy byDifficulty items).map fun i => cfg.juniorTime i.difficulty)
          (cfg.juniorWorkers * cfg.workHoursPerDay) := by
  obtain ⟨e1, e2, e3, e4, e5, e6⟩ := initState_parts cfg
  have hfil : items.filter (fun i => i.priority == 1) = [] := by
    rw [List.filter_eq_nil_iff]
    intro a ha
    simpa using hnop1 a ha
  have hp1 : phase1 cfg items = initState cfg := by
    unfold phase1
    rw [hfil]
    rfl
  have hp2 : phase2Go cfg
      (sortBy byPriorityDifficulty (items.filter (fun i => i.priority != 1)))
      (initState cfg) = initState cfg :=
    phase2Go_stop cfg _ _ (by omega)
  rw [advanced_planTotal_eq, hp1, hp2]
  unfold phase3
  by_cases hlen : (initState cfg).completed < items.length
  · simp only [if_pos hlen]
    rw [e4, List.drop_zero]
    have hrem : (initState cfg).remSenior = 0 := by
      rw [e2, hsw]
      simp
    have := phase3Go_junior_only cfg (sortBy byDifficulty items) (initState cfg) hrem
      (fun j hj => hstpos j ((mem_sortBy byDifficulty j items).mp hj))
    rw [e3, e4] at this
    omega
  · simp only [if_neg hlen]
    rw [e4] at hlen
    have : items = [] := by
      cases items with
      | nil => rfl
      | cons a l => simp at hlen
    subst this
    rw [e4]
    rfl

/-- C8 (amended): in general adding a worker can decrease the planned
count (see the counterexample); but in the junior-only maximization regime
— no mandatory rows, zero minimum target, zero senior workers, positive
senior times and a junior time table nondecreasing in difficulty — adding
one junior worker never decreases the number of planned items. -/
theorem junior_monotonicity_restricted (cfg : PlannerConfig) (items : List WorkItem)
    (hnop1 : ∀ i ∈ items, i.priority ≠ 1)
    (htarget : cfg.minimumWorkTarget = 0)
    (hsw : cfg.seniorWorkers = 0)
    (hstpos : ∀ i ∈ items, 0 < cfg.seniorTime i.difficulty)
    (hmono : ∀ d e, d ≤ e → cfg.juniorTime d ≤ cfg.juniorTime e) :
    planTotal (advanced_optimal_strategy cfg items).1
      ≤ planTotal (advanced_optimal_strategy
          { cfg with juniorWorkers := cfg.juniorWorkers + 1 } items).1 := by
  rw [advanced_junior_only_count cfg items hnop1 htarget hsw hstpos]
  rw [advanced_junior_only_count { cfg with juniorWorkers := cfg.juniorWorkers + 1 }
    items hnop1 htarget hsw hstpos]
  have hsorted :
      ((sortBy byDifficulty items).map fun i => cfg.juniorTime i.difficulty).Sorted
        (· ≤ ·) :=
    List.Pairwise.map _ (fun a b hab => hmono _ _ hab) (sortBy_byDifficulty_sorted items)
  exact greedyCount_mono _ hsorted _ _
    (Nat.mul_le_mul_right cfg.workHoursPerDay (Nat.le_succ cfg.juniorWorkers))

/-- C8 (amended) witness: one difficulty-1 priority-2 item, constant time
tables, zero seniors; going from one to two juniors keeps the count. -/
theorem junior_monotonicity_witness :
    planTotal (advanced_optimal_strategy ⟨0, 1, 480, 0, fun _ => 5, fun _ => 8⟩
        [⟨2, 1⟩]).1
      ≤ planTotal (advanced_optimal_strategy ⟨0, 2, 480, 0, fun _ => 5, fun _ => 8⟩
        [⟨2, 1⟩]).1 :=
  junior_monotonicity_restricted ⟨0, 1, 480, 0, fun _ => 5, fun _ => 8⟩ [⟨2, 1⟩]
    (by decide) rfl rfl (by decide) (fun _ _ _ => Nat.le.refl)

end AssignManager

namespace AssignManager

theorem getLoad_replicate_zero (n w : Nat) : getLoad (List.replicate n 0) w = 0 := by
  unfold getLoad
  induction n generalizing w with
  | zero => simp
  | succ n ih =>
    cases w with
    | zero => simp [List.replicate]
    | succ w =>
      simp only [List.replicate, List.getD_cons_succ]
      exact ih w

theorem getLoad_mem (loads : List Nat) (w : Nat) (h : w < loads.length) :
    getLoad loads w ∈ loads := by
  unfold getLoad
  rw [List.getD_eq_getElem loads 0 h]
  exact List.getElem_mem h

theorem getLoad_of_len_le (loads : List Nat) (w : Nat) (h : loads.length ≤ w) :
    getLoad loads w = 0 :=
  List.getD_eq_default loads 0 h

theorem length_addLoad (loads : List Nat) (w t : Nat) :
    (addLoad loads w t).length = loads.length := by
  induction loads generalizing w with
  | nil => rfl
  | cons x xs ih =>
    cases w with
    | zero => rfl
    | succ w => simpa [addLoad] using ih w

theorem getLoad_addLoad_self (loads : List Nat) (w t : Nat) (h : w < loads.length) :
    getLoad (addLoad loads w t) w = getLoad loads w + t := by
  induction loads generalizing w with
  | nil => simp at h
  | cons x xs ih =>
    cases w with
    | zero => simp [addLoad, getLoad]
    | succ w =>
      simp only [addLoad, getLoad, List.getD_cons_succ]
      exact ih w (by simpa using h)

theorem getLoad_addLoad_ne (loads : List Nat) (w v t : Nat) (h : v ≠ w) :
    getLoad (addLoad loads w t) v = getLoad loads v := by
  induction loads generalizing w v with
  | nil => rfl
  | cons x xs ih =>
    cases w with
    | zero =>
      cases v with
      | zero => exact absurd rfl h
      | succ v => simp [addLoad, getLoad]
    | succ w =>
      cases v with
      | zero => simp [addLoad, getLoad]
      | succ v =>
        simp only [addLoad, getLoad, List.getD_cons_succ]
        exact ih w v (by omega)

theorem mem_addLoad (loads : List Nat) (w t : Nat) :
    ∀ x ∈ addLoad loads w t, x ∈ loads ∨ x = getLoad loads w + t := by
  induction loads generalizing w with
  | nil => simp [addLoad]
  | cons y xs ih =>
    cases w with
    | zero =>
      intro x hx
      simp only [addLoad, List.mem_cons] at hx
      rcases hx with rfl | hx
      · right
        simp [getLoad]
      · left
        simp [hx]
    | succ w =>
      intro x hx
      simp only [addLoad, List.mem_cons] at hx
      rcases hx with rfl | hx
      · left
        simp
      · rcases ih w x hx with hm | he
        · left
          simp [hm]
        · right
          simpa [getLoad] using he

theorem foldl_pick_mem (loads : List Nat) :
    ∀ (rest : List Nat) (a : Nat),
      rest.foldl (fun b j => if getLoad loads j < getLoad loads b then j else b) a
        ∈ a :: rest := by
  intro rest
  induction rest with
  | nil => simp
  | cons j rest ih =>
    intro a
    simp only [List.foldl_cons]
    by_cases hj : getLoad loads j < getLoad loads a
    · simp only [if_pos hj]
      have := ih j
      rw [List.mem_cons] at this ⊢
      rcases this with h | h
      · right
        simp [h]
      · right
        simp [h]
    · simp only [if_neg hj]
      have := ih a
      rw [List.mem_cons] at this ⊢
      rcases this with h | h
      · left
        exact h
      · right
        simp [h]

theorem pickWorker_spec (loads : List Nat) (t H w : Nat)
    (h : pickWorker loads t H = some w) :
    w < loads.length ∧ getLoad loads w + t ≤ H := by
  unfold pickWorker at h
  cases hm : (List.range loads.length).filter (fun i => decide (getLoad loads i + t ≤ H)) with
  | nil =>
    rw [hm] at h
    exact absurd h (by simp)
  | cons a rest =>
    rw [hm] at h
    have hw : w ∈ a :: rest := by
      have := foldl_pick_mem loads rest a
      simp only [Option.some.injEq] at h
      rw [h] at this
      exact this
    rw [← hm] at hw
    rw [List.mem_filter] at hw
    obtain ⟨hrange, hpred⟩ := hw
    rw [List.mem_range] at hrange
    simp only [decide_eq_true_eq] at hpred
    exact ⟨hrange, hpred⟩

theorem planKeys_decSenior (p : Plan) (d : Nat) :
    planKeys (decSenior p d) = planKeys p := by
  induction p with
  | nil => rfl
  | cons e rest ih =>
    by_cases h : e.1 = d
    · simp [decSenior, h, planKeys]
    · simp only [decSenior, if_neg h, planKeys, List.map_cons]
      simp only [planKeys] at ih
      rw [ih]

theorem planKeys_decJunior (p : Plan) (d : Nat) :
    planKeys (decJunior p d) = planKeys p := by
  induction p with
  | nil => rfl
  | cons e rest ih =>
    by_cases h : e.1 = d
    · simp [decJunior, h, planKeys]
    · simp only [decJunior, if_neg h, planKeys, List.map_cons]
      simp only [planKeys] at ih
      rw [ih]

theorem planFind_eq_none_iff (p : Plan) (d : Nat) :
    planFind p d = none ↔ d ∉ planKeys p := by
  induction p with
  | nil => simp [planFind, planKeys]
  | cons e rest ih =>
    by_cases h : e.1 = d
    · simp [planFind, planKeys, List.find?, h]
    · simp only [planFind, planKeys, List.find?, List.map_cons, List.mem_cons] at ih ⊢
      rw [show (e.1 == d) = false by simpa using h]
      simp only [ih]
      constructor
      · intro hnot hor
        rcases hor with he | hm
        · exact h he.symm
        · exact hnot hm
      · intro hnot hm
        exact hnot (Or.inr hm)

end AssignManager

namespace AssignManager

theorem mapperStep_shape (mc : MapperConfig) (ms : MapperState) (i : WorkItem) :
    (planFind ms.quota i.difficulty = none ∧ mapperStep mc ms i = leaveUnassigned ms i)
    ∨ (mapperStep mc ms i = leaveUnassigned ms i)
    ∨ (∃ dq w,
        pickWorker ms.seniorLoads (mc.seniorTime i.difficulty) mc.workHoursPerDay = some w
        ∧ mapperStep mc ms i = assignSenior mc ms i dq w)
    ∨ (∃ dq w,
        pickWorker ms.juniorLoads (mc.juniorTime i.difficulty) mc.workHoursPerDay = some w
        ∧ mapperStep mc ms i = assignJunior mc ms i dq w) := by
  unfold mapperStep
  cases hq : planFind ms.quota i.difficulty with
  | none => exact Or.inl ⟨rfl, rfl⟩
  | some q =>
    cases hps : pickWorker ms.seniorLoads (mc.seniorTime i.difficulty) mc.workHoursPerDay with
    | some w =>
      have hA : trySenior mc ms i true = some (assignSenior mc ms i true w) := by
        simp [trySenior, hps]
      have hA' : trySenior mc ms i false = some (assignSenior mc ms i false w) := by
        simp [trySenior, hps]
      cases hpj : pickWorker ms.juniorLoads (mc.juniorTime i.difficulty) mc.workHoursPerDay with
      | some v =>
        have hB : tryJunior mc ms i true = some (assignJunior mc ms i true v) := by
          simp [tryJunior, hpj]
        have hB' : tryJunior mc ms i false = some (assignJunior mc ms i false v) := by
          simp [tryJunior, hpj]
        by_cases hq0 : 0 < q.senior + q.junior
        · by_cases hP : (i.difficulty ∈ mc.highDifficultyLevels
              ∨ 5 * q.senior > 3 * (q.senior + q.junior)) ∧ 0 < q.senior
          · refine Or.inr (Or.inr (Or.inl ⟨true, w, rfl, ?_⟩))
            simp only [if_pos hq0, if_pos hP, hA]
          · by_cases hqj : 0 < q.junior
            · refine Or.inr (Or.inr (Or.inr ⟨true, v, rfl, ?_⟩))
              simp only [if_pos hq0, if_neg hP, if_pos hqj, hB]
            · by_cases hqs : 0 < q.senior
              · refine Or.inr (Or.inr (Or.inl ⟨true, w, rfl, ?_⟩))
                simp only [if_pos hq0, if_neg hP, if_neg hqj, if_pos hqs, hA]
              · by_cases hhd : i.difficulty ∈ mc.highDifficultyLevels
                · refine Or.inr (Or.inr (Or.inl ⟨false, w, rfl, ?_⟩))
                  simp only [if_pos hq0, if_neg hP, if_neg hqj, if_neg hqs, if_pos hhd, hA']
                · refine Or.inr (Or.inr (Or.inr ⟨false, v, rfl, ?_⟩))
                  simp only [if_pos hq0, if_neg hP, if_neg hqj, if_neg hqs, if_neg hhd, hB']
        · by_cases hhd : i.difficulty ∈ mc.highDifficultyLevels
          · refine Or.inr (Or.inr (Or.inl ⟨false, w, rfl, ?_⟩))
            simp only [if_neg hq0, if_pos hhd, hA']
          · refine Or.inr (Or.inr (Or.inr ⟨false, v, rfl, ?_⟩))
            simp only [if_neg hq0, if_neg hhd, hB']
      | none =>
        have hB : tryJunior mc ms i true = none := by simp [tryJunior, hpj]
        have hB' : tryJunior mc ms i false = none := by simp [tryJunior, hpj]
        by_cases hq0 : 0 < q.senior + q.junior
        · by_cases hP : (i.difficulty ∈ mc.highDifficultyLevels
              ∨ 5 * q.senior > 3 * (q.senior + q.junior)) ∧ 0 < q.senior
          · refine Or.inr (Or.inr (Or.inl ⟨true, w, rfl, ?_⟩))
            simp only [if_pos hq0, if_pos hP, hA]
          · by_cases hqj : 0 < q.junior
            · by_cases hqs : 0 < q.senior
              · refine Or.inr (Or.inr (Or.inl ⟨true, w, rfl, ?_⟩))
                simp only [if_pos hq0, if_neg hP, if_pos hqj, hB, if_pos hqs, hA]
              · by_cases hhd : i.difficulty ∈ mc.highDifficultyLevels
                · refine Or.inr (Or.inr (Or.inl ⟨false, w, rfl, ?_⟩))
                  simp only [if_pos hq0, if_neg hP, if_pos hqj, hB, if_neg hqs,
                    if_pos hhd, hA']
                · refine Or.inr (Or.inr (Or.inl ⟨false, w, rfl, ?_⟩))
                  simp only [if_pos hq0, if_neg hP, if_pos hqj, hB, if_neg hqs,
                    if_neg hhd, hB', hA']
            · by_cases hqs : 0 < q.senior
              · refine Or.inr (Or.inr (Or.inl ⟨true, w, rfl, ?_⟩))
                simp only [if_pos hq0, if_neg hP, if_neg hqj, if_pos hqs, hA]
              · by_cases hhd : i.difficulty ∈ mc.highDifficultyLevels
                · refine Or.inr (Or.inr (Or.inl ⟨false, w, rfl, ?_⟩))
                  simp only [if_pos hq0, if_neg hP, if_neg hqj, if_neg hqs, if_pos hhd, hA']
                · refine Or.inr (Or.inr (Or.inl ⟨false, w, rfl, ?_⟩))
                  simp only [if_pos hq0, if_neg hP, if_neg hqj, if_neg hqs, if_neg hhd,
                    hB', hA']
        · by_cases hhd : i.difficulty ∈ mc.highDifficultyLevels
          · refine Or.inr (Or.inr (Or.inl ⟨false, w, rfl, ?_⟩))
            simp only [if_neg hq0, if_pos hhd, hA']
          · refine Or.inr (Or.inr (Or.inl ⟨false, w, rfl, ?_⟩))
            simp only [if_neg hq0, if_neg hhd, hB', hA']
    | none =>
      have hA : trySenior mc ms i true = none := by simp [trySenior, hps]
      have hA' : trySenior mc ms i false = none := by simp [trySenior, hps]
      cases hpj : pickWorker ms.juniorLoads (mc.juniorTime i.difficulty) mc.workHoursPerDay with
      | some v =>
        have hB : tryJunior mc ms i true = some (assignJunior mc ms i true v) := by
          simp [tryJunior, hpj]
        have hB' : tryJunior mc ms i false = some (assignJunior mc ms i false v) := by
          simp [tryJunior, hpj]
        by_cases hq0 : 0 < q.senior + q.junior
        · by_cases hP : (i.difficulty ∈ mc.highDifficultyLevels
              ∨ 5 * q.senior > 3 * (q.senior + q.junior)) ∧ 0 < q.senior
          · by_cases hqj : 0 < q.junior
            · refine Or.inr (Or.inr (Or.inr ⟨true, v, rfl, ?_⟩))
              simp only [if_pos hq0, if_pos hP, hA, if_pos hqj, hB]
            · by_cases hhd : i.difficulty ∈ mc.highDifficultyLevels
              · refine Or.inr (Or.inr (Or.inr ⟨false, v, rfl, ?_⟩))
                simp only [if_pos hq0, if_pos hP, hA, if_neg hqj, if_pos hhd, hA', hB']
              · refine Or.inr (Or.inr (Or.inr ⟨false, v, rfl, ?_⟩))
                simp only [if_pos hq0, if_pos hP, hA, if_neg hqj, if_neg hhd, hB']
          · by_cases hqj : 0 < q.junior
            · refine Or.inr (Or.inr (Or.inr ⟨true, v, rfl, ?_⟩))
              simp only [if_pos hq0, if_neg hP, if_pos hqj, hB]
            · by_cases hqs : 0 < q.senior
              · by_cases hhd : i.difficulty ∈ mc.highDifficultyLevels
                · refine Or.inr (Or.inr (Or.inr ⟨false, v, rfl, ?_⟩))
                  simp only [if_pos hq0, if_neg hP, if_neg hqj, if_pos hqs, hA,
                    if_pos hhd, hA', hB']
                · refine Or.inr (Or.inr (Or.inr ⟨false, v, rfl, ?_⟩))
                  simp only [if_pos hq0, if_neg hP, if_neg hqj, if_pos hqs, hA,
                    if_neg hhd, hB']
              · by_cases hhd : i.difficulty ∈ mc.highDifficultyLevels
                · refine Or.inr (Or.inr (Or.inr ⟨false, v, rfl, ?_⟩))
                  simp only [if_pos hq0, if_neg hP, if_neg hqj, if_neg hqs, if_pos hhd,
                    hA', hB']
                · refine Or.inr (Or.inr (Or.inr ⟨false, v, rfl, ?_⟩))
                  simp only [if_pos hq0, if_neg hP, if_neg hqj, if_neg hqs, if_neg hhd, hB']
        · by_cases hhd : i.difficulty ∈ mc.highDifficultyLevels
          · refine Or.inr (Or.inr (Or.inr ⟨false, v, rfl, ?_⟩))
            simp only [if_neg hq0, if_pos hhd, hA', hB']
          · refine Or.inr (Or.inr (Or.inr ⟨false, v, rfl, ?_⟩))
            simp only [if_neg hq0, if_neg hhd, hB']
      | none =>
        have hB : tryJunior mc ms i true = none := by simp [tryJunior, hpj]
        have hB' : tryJunior mc ms i false = none := by simp [tryJunior, hpj]
        refine Or.inr (Or.inl ?_)
        by_cases hq0 : 0 < q.senior + q.junior
        · by_cases hP : (i.difficulty ∈ mc.highDifficultyLevels
              ∨ 5 * q.senior > 3 * (q.senior + q.junior)) ∧ 0 < q.senior
          · by_cases hqj : 0 < q.junior
            · by_cases hhd : i.difficulty ∈ mc.highDifficultyLevels
              · simp only [if_pos hq0, if_pos hP, hA, if_pos hqj, hB, if_pos hhd, hA', hB']
              · simp only [if_pos hq0, if_pos hP, hA, if_pos hqj, hB, if_neg hhd, hB', hA']
            · by_cases hhd : i.difficulty ∈ mc.highDifficultyLevels
              · simp only [if_pos hq0, if_pos hP, hA, if_neg hqj, if_pos hhd, hA', hB']
              · simp only [if_pos hq0, if_pos hP, hA, if_neg hqj, if_neg hhd, hB', hA']
          · by_cases hqj : 0 < q.junior
            · by_cases hqs : 0 < q.senior
              · by_cases hhd : i.difficulty ∈ mc.highDifficultyLevels
                · simp only [if_pos hq0, if_neg hP, if_pos hqj, hB, if_pos hqs, hA,
                    if_pos hhd, hA', hB']
                · simp only [if_pos hq0, if_neg hP, if_pos hqj, hB, if_pos hqs, hA,
                    if_neg hhd, hB', hA']
              · by_cases hhd : i.difficulty ∈ mc.highDifficultyLevels
                · simp only [if_pos hq0, if_neg hP, if_pos hqj, hB, if_neg hqs,
                    if_pos hhd, hA', hB']
                · simp only [if_pos hq0, if_neg hP, if_pos hqj, hB, if_neg hqs,
                    if_neg hhd, hB', hA']
            · by_cases hqs : 0 < q.senior
              · by_cases hhd : i.difficulty ∈ mc.highDifficultyLevels
                · simp only [if_pos hq0, if_neg hP, if_neg hqj, if_pos hqs, hA,
                    if_pos hhd, hA', hB']
                · simp only [if_pos hq0, if_neg hP, if_neg hqj, if_pos hqs, hA,
                    if_neg hhd, hB', hA']
              · by_cases hhd : i.difficulty ∈ mc.highDifficultyLevels
                · simp only [if_pos hq0, if_neg hP, if_neg hqj, if_neg hqs,
                    if_pos hhd, hA', hB']
                · simp only [if_pos hq0, if_neg hP, if_neg hqj, if_neg hqs,
                    if_neg hhd, hB', hA']
        · by_cases hhd : i.difficulty ∈ mc.highDifficultyLevels
          · simp only [if_neg hq0, if_pos hhd, hA', hB']
          · simp only [if_neg hq0, if_neg hhd, hB', hA']

end AssignManager

namespace AssignManager

theorem mapperStep_of_no_key (mc : MapperConfig) (ms : MapperState) (i : WorkItem)
    (h : planFind ms.quota i.difficulty = none) :
    mapperStep mc ms i = leaveUnassigned ms i := by
  unfold mapperStep
  rw [h]

theorem mapperStep_keys (mc : MapperConfig) (ms : MapperState) (i : WorkItem) :
    planKeys (mapperStep mc ms i).quota = planKeys ms.quota := by
  rcases mapperStep_shape mc ms i with ⟨_, h⟩ | h | ⟨dq, w, _, h⟩ | ⟨dq, w, _, h⟩
  · rw [h]
    rfl
  · rw [h]
    rfl
  · rw [h]
    unfold assignSenior
    cases dq
    · rfl
    · simp [planKeys_decSenior]
  · rw [h]
    unfold assignJunior
    cases dq
    · rfl
    · simp [planKeys_decJunior]

theorem mapperStep_bound (mc : MapperConfig) (ms : MapperState) (i : WorkItem)
    (hs : ∀ x ∈ ms.seniorLoads, x ≤ mc.workHoursPerDay)
    (hj : ∀ x ∈ ms.juniorLoads, x ≤ mc.workHoursPerDay) :
    (∀ x ∈ (mapperStep mc ms i).seniorLoads, x ≤ mc.workHoursPerDay)
    ∧ (∀ x ∈ (mapperStep mc ms i).juniorLoads, x ≤ mc.workHoursPerDay) := by
  rcases mapperStep_shape mc ms i with ⟨_, h⟩ | h | ⟨dq, w, hpick, h⟩ | ⟨dq, w, hpick, h⟩
  · rw [h]
    exact ⟨hs, hj⟩
  · rw [h]
    exact ⟨hs, hj⟩
  · rw [h]
    obtain ⟨hlt, hle⟩ := pickWorker_spec _ _ _ _ hpick
    constructor
    · intro x hx
      simp only [assignSenior] at hx
      rcases mem_addLoad _ _ _ x hx with hm | he
      · exact hs x hm
      · omega
    · intro x hx
      simp only [assignSenior] at hx
      exact hj x hx
  · rw [h]
    obtain ⟨hlt, hle⟩ := pickWorker_spec _ _ _ _ hpick
    constructor
    · intro x hx
      simp only [assignJunior] at hx
      exact hs x hx
    · intro x hx
      simp only [assignJunior] at hx
      rcases mem_addLoad _ _ _ x hx with hm | he
      · exact hj x hm
      · omega

theorem mapperStep_record (mc : MapperConfig) (ms : MapperState) (i : WorkItem) :
    ∃ r, (mapperStep mc ms i).results = ms.results ++ [r]
      ∧ r.item = i
      ∧ (∀ w, getLoad (mapperStep mc ms i).seniorLoads w
          = getLoad ms.seniorLoads w
            + (if r.assignedWorker = some (WorkerClass.senior, w)
               then r.estimatedTime else 0))
      ∧ (∀ w, getLoad (mapperStep mc ms i).juniorLoads w
          = getLoad ms.juniorLoads w
            + (if r.assignedWorker = some (WorkerClass.junior, w)
               then r.estimatedTime else 0))
      ∧ ((mapperStep mc ms i).seniorLoads.length = ms.seniorLoads.length)
      ∧ ((mapperStep mc ms i).juniorLoads.length = ms.juniorLoads.length) := by
  rcases mapperStep_shape mc ms i with ⟨_, h⟩ | h | ⟨dq, w0, hpick, h⟩ | ⟨dq, w0, hpick, h⟩
  · rw [h]
    exact ⟨⟨i, none, 0⟩, rfl, rfl, fun w => by simp [leaveUnassigned],
      fun w => by simp [leaveUnassigned], rfl, rfl⟩
  · rw [h]
    exact ⟨⟨i, none, 0⟩, rfl, rfl, fun w => by simp [leaveUnassigned],
      fun w => by simp [leaveUnassigned], rfl, rfl⟩
  · rw [h]
    obtain ⟨hlt, hle⟩ := pickWorker_spec _ _ _ _ hpick
    refine ⟨⟨i, some (.senior, w0), mc.seniorTime i.difficulty⟩, rfl, rfl, ?_, ?_, ?_, rfl⟩
    · intro w
      by_cases hw : w = w0
      · subst hw
        simp only [assignSenior]
        rw [getLoad_addLoad_self _ _ _ hlt]
        simp
      · simp only [assignSenior]
        rw [getLoad_addLoad_ne _ _ _ _ hw]
        have : ¬ (some ((WorkerClass.senior : WorkerClass), w0)
            = some ((WorkerClass.senior : WorkerClass), w)) := by
          simp
          omega
        simp [this]
    · intro w
      simp [assignSenior]
    · simp only [assignSenior]
      exact length_addLoad _ _ _
  · rw [h]
    obtain ⟨hlt, hle⟩ := pickWorker_spec _ _ _ _ hpick
    refine ⟨⟨i, some (.junior, w0), mc.juniorTime i.difficulty⟩, rfl, rfl, ?_, ?_, rfl, ?_⟩
    · intro w
      simp [assignJunior]
    · intro w
      by_cases hw : w = w0
      · subst hw
        simp only [assignJunior]
        rw [getLoad_addLoad_self _ _ _ hlt]
        simp
      · simp only [assignJunior]
        rw [getLoad_addLoad_ne _ _ _ _ hw]
        have : ¬ (some ((WorkerClass.junior : WorkerClass), w0)
            = some ((WorkerClass.junior : WorkerClass), w)) := by
          simp
          omega
        simp [this]
    · simp only [assignJunior]
      exact length_addLoad _ _ _

theorem assignedMinutes_cons (r : ItemResult) (rs : List ItemResult)
    (c : WorkerClass) (w : Nat) :
    assignedMinutes (r :: rs) c w
      = (if r.assignedWorker = some (c, w) then r.estimatedTime else 0)
        + assignedMinutes rs c w := by
  simp [assignedMinutes]

end AssignManager

namespace AssignManager

theorem mapperRun_bound (mc : MapperConfig) :
    ∀ (l : List WorkItem) (ms : MapperState),
      (∀ x ∈ ms.seniorLoads, x ≤ mc.workHoursPerDay) →
      (∀ x ∈ ms.juniorLoads, x ≤ mc.workHoursPerDay) →
      (∀ x ∈ (mapperRun mc l ms).seniorLoads, x ≤ mc.workHoursPerDay)
      ∧ (∀ x ∈ (mapperRun mc l ms).juniorLoads, x ≤ mc.workHoursPerDay) := by
  intro l
  induction l with
  | nil => intro ms hs hj; exact ⟨hs, hj⟩
  | cons i rest ih =>
    intro ms hs hj
    obtain ⟨hs2, hj2⟩ := mapperStep_bound mc ms i hs hj
    exact ih (mapperStep mc ms i) hs2 hj2

theorem mapperRun_record (mc : MapperConfig) :
    ∀ (l : List WorkItem) (ms : MapperState),
      ∃ rs, (mapperRun mc l ms).results = ms.results ++ rs
        ∧ (∀ w, getLoad (mapperRun mc l ms).seniorLoads w
            = getLoad ms.seniorLoads w + assignedMinutes rs WorkerClass.senior w)
        ∧ (∀ w, getLoad (mapperRun mc l ms).juniorLoads w
            = getLoad ms.juniorLoads w + assignedMinutes rs WorkerClass.junior w)
        ∧ ((mapperRun mc l ms).seniorLoads.length = ms.seniorLoads.length)
        ∧ ((mapperRun mc l ms).juniorLoads.length = ms.juniorLoads.length) := by
  intro l
  induction l with
  | nil =>
    intro ms
    exact ⟨[], by simp [mapperRun], fun w => by simp [mapperRun, assignedMinutes],
      fun w => by simp [mapperRun, assignedMinutes], rfl, rfl⟩
  | cons i rest ih =>
    intro ms
    obtain ⟨r, hr, hritem, hswl, hjwl, hsl, hjl⟩ := mapperStep_record mc ms i
    obtain ⟨rs, hrs, hsw2, hjw2, hsl2, hjl2⟩ := ih (mapperStep mc ms i)
    refine ⟨r :: rs, ?_, ?_, ?_, ?_, ?_⟩
    · show (mapperRun mc rest (mapperStep mc ms i)).results = _
      rw [hrs, hr, List.append_assoc]
      rfl
    · intro w
      show getLoad (mapperRun mc rest (mapperStep mc ms i)).seniorLoads w = _
      rw [assignedMinutes_cons]
      have h1 := hsw2 w
      have h2 := hswl w
      omega
    · intro w
      show getLoad (mapperRun mc rest (mapperStep mc ms i)).juniorLoads w = _
      rw [assignedMinutes_cons]
      have h1 := hjw2 w
      have h2 := hjwl w
      omega
    · show (mapperRun mc rest (mapperStep mc ms i)).seniorLoads.length = _
      rw [hsl2, hsl]
    · show (mapperRun mc rest (mapperStep mc ms i)).juniorLoads.length = _
      rw [hjl2, hjl]

theorem mapperRun_unplanned (mc : MapperConfig) (K : List Nat) :
    ∀ (l : List WorkItem) (ms : MapperState),
      planKeys ms.quota = K →
      (∀ r ∈ ms.results, r.item.difficulty ∉ K →
        r.assignedWorker = none ∧ r.estimatedTime = 0) →
      ∀ r ∈ (mapperRun mc l ms).results, r.item.difficulty ∉ K →
        r.assignedWorker = none ∧ r.estimatedTime = 0 := by
  intro l
  induction l with
  | nil =>
    intro ms hk hres
    exact hres
  | cons i rest ih =>
    intro ms hk hres
    show ∀ r ∈ (mapperRun mc rest (mapperStep mc ms i)).results, _
    apply ih (mapperStep mc ms i)
    · rw [mapperStep_keys]
      exact hk
    · by_cases hkey : planFind ms.quota i.difficulty = none
      · rw [mapperStep_of_no_key mc ms i hkey]
        intro r hr hrd
        simp only [leaveUnassigned, List.mem_append] at hr
        rcases hr with hr | hr
        · exact hres r hr hrd
        · simp only [List.mem_singleton] at hr
          subst hr
          exact ⟨rfl, rfl⟩
      · obtain ⟨r0, hr0, hitem, _, _, _, _⟩ := mapperStep_record mc ms i
        intro r hr hrd
        rw [hr0, List.mem_append] at hr
        rcases hr with hr | hr
        · exact hres r hr hrd
        · simp only [List.mem_singleton] at hr
          subst hr
          rw [hitem] at hrd
          have hmem : i.difficulty ∈ planKeys ms.quota := by
            by_contra hc
            exact hkey ((planFind_eq_none_iff _ _).mpr hc)
          rw [hk] at hmem
          exact absurd hmem hrd

end AssignManager

namespace AssignManager

/-- C1: capacity invariant of the worker mapper.  For every run of
`assign_workers_to_tasks` — any quota plan, any rows, any roster sizes —
and for every worker of either class, the sum of `estimated_time` over the
rows assigned to that worker is at most the daily budget
`WORK_HOURS_PER_DAY`: each candidate pool is filtered by
`workload[w] + time <= WORK_HOURS_PER_DAY` before any assignment, and a row
no worker can absorb stays `UNASSIGNED`. -/
theorem worker_capacity_invariant (mc : MapperConfig) (plan : Plan)
    (items : List WorkItem) (nSenior nJunior : Nat) (c : WorkerClass) (w : Nat) :
    assignedMinutes (assign_workers_to_tasks mc plan items nSenior nJunior).results c w
      ≤ mc.workHoursPerDay := by
  unfold assign_workers_to_tasks
  set ms0 : MapperState :=
    ⟨plan, List.replicate nSenior 0, List.replicate nJunior 0, []⟩ with hms0
  have es : ms0.seniorLoads = List.replicate nSenior 0 := rfl
  have ej : ms0.juniorLoads = List.replicate nJunior 0 := rfl
  have er : ms0.results = [] := rfl
  obtain ⟨rs, hres, hsw, hjw, hsl, hjl⟩ :=
    mapperRun_record mc (sortBy byPriorityDifficulty items) ms0
  have hbound := mapperRun_bound mc (sortBy byPriorityDifficulty items) ms0
    (by
      rw [es]
      intro x hx
      have := List.eq_of_mem_replicate hx
      omega)
    (by
      rw [ej]
      intro x hx
      have := List.eq_of_mem_replicate hx
      omega)
  set R := mapperRun mc (sortBy byPriorityDifficulty items) ms0 with hR
  rw [hres, er]
  have hnil : assignedMinutes ([] ++ rs) c w = assignedMinutes rs c w := by
    rw [List.nil_append]
  rw [hnil]
  cases c with
  | senior =>
    have h1 := hsw w
    rw [es, getLoad_replicate_zero] at h1
    by_cases hw : w < R.seniorLoads.length
    · have := hbound.1 _ (getLoad_mem _ _ hw)
      omega
    · have h0 := getLoad_of_len_le R.seniorLoads w (by omega)
      omega
  | junior =>
    have h1 := hjw w
    rw [ej, getLoad_replicate_zero] at h1
    by_cases hw : w < R.juniorLoads.length
    · have := hbound.2 _ (getLoad_mem _ _ hw)
      omega
    · have h0 := getLoad_of_len_le R.juniorLoads w (by omega)
      omega

/-- C10: a row whose difficulty is not a key of the quota plan is skipped
by the `continue` at the top of the assignment loop: its output record
keeps `assigned_worker = worker_type = UNASSIGNED` and `estimated_time = 0`
even when workers still have capacity — the over-quota fallback never runs
for it.  The quota dictionary's key set never changes during the run, so
the check against the original plan's keys is sound for every iteration. -/
theorem unplanned_difficulty_unassigned (mc : MapperConfig) (plan : Plan)
    (items : List WorkItem) (nSenior nJunior : Nat) (r : ItemResult)
    (hr : r ∈ (assign_workers_to_tasks mc plan items nSenior nJunior).results)
    (hd : r.item.difficulty ∉ planKeys plan) :
    r.assignedWorker = none ∧ r.estimatedTime = 0 := by
  unfold assign_workers_to_tasks at hr
  refine mapperRun_unplanned mc (planKeys plan) (sortBy byPriorityDifficulty items)
    ⟨plan, List.replicate nSenior 0, List.replicate nJunior 0, []⟩ rfl ?_ r hr hd
  intro r0 hr0
  exact absurd hr0 (List.not_mem_nil r0)

/-- C10 witness: with an empty quota plan the Scenario A row keeps its
`UNASSIGNED` defaults even though both workers are idle. -/
theorem unplanned_difficulty_witness :
    (⟨⟨1, 1⟩, none, 0⟩ : ItemResult).assignedWorker = none
    ∧ (⟨⟨1, 1⟩, none, 0⟩ : ItemResult).estimatedTime = 0 :=
  unplanned_difficulty_unassigned mcA [] itemsA 1 1 ⟨⟨1, 1⟩, none, 0⟩
    (by decide) (by decide)

end AssignManager
